import Mathlib

/-!
# Verification of the data-drag drag-and-drop engine

A shallow embedding of the `data-drag` library (classes `Access` and
`DataDrag` of `index.js`) together with proofs about the claims of its
specification.

Modelling conventions:

* Document elements are identified by natural numbers (`EId`).  A concrete
  element's CSS selector-matching behavior (`element.matches(pattern)`) is
  an external capability of the host environment; we model it as a function
  `String → Bool` attached to the element.  An invalid selector pattern
  makes `element.matches` throw in the host, which the source catches and
  converts to `false`; this is absorbed by letting the matcher return
  `false` on such patterns.
* Screen geometry uses exact integer coordinates (`Int`); the two
  non-integral comparisons of the source are embedded in equivalent exact
  integer form: `Math.hypot dx dy >= 5` as `dx^2 + dy^2 >= 25`, and
  `coordinate < lo + extent / 2` (a bounding-rectangle midpoint test) as
  `2 * coordinate < 2 * lo + extent`.
* Stateful code is modelled by explicit state passing: every event handler
  is a function from the global engine state (registry of instances, the
  process-wide drag session, the document tree, the log of emitted
  notifications) to a new global state.
-/

namespace DataDragSpec

/-- The selector-matching behavior of a document element: for each CSS
selector pattern, whether the element matches it.  (This stands for the
host's `element.matches`; a pattern whose selector syntax is invalid simply
yields `false`, mirroring the `try/catch` in `Access.matches`.) -/
abbrev Matcher := String → Bool

/-- The access-control configuration of the `Access` class: an evaluation
order list, an allow pattern list and a deny pattern list (fields `order`,
`allow`, `deny` set by the constructor). -/
structure Access where
  order : List String
  allow : List String
  deny : List String
deriving Repr

namespace Access

/-- `new Access(config)`: the constructor applies the defaults
`order = ['allow','deny']`, `allow = ['*']`, `deny = []` for absent
(or `null`/`undefined`) configuration fields. -/
def ofConfig (order? allow? deny? : Option (List String)) : Access :=
  { order := order?.getD ["allow", "deny"]
  , allow := allow?.getD ["*"]
  , deny := deny?.getD [] }

/-- `Access.matches(element, patterns)`: true when the pattern list contains
the wildcard `'*'`, or when the element matches some pattern in the list.
(Named `matchesPatterns` here because `matches` is reserved in Lean.) -/
def matchesPatterns (m : Matcher) (patterns : List String) : Bool :=
  let hasWildcard := patterns.contains "*"
  if hasWildcard then true
  else patterns.any m

/-- `Access.canAccept(item, sourceParent)`: no source container always
accepts; otherwise Apache-style allow/deny evaluation, with the branch
chosen by whether `order[0] === 'deny'`.  (The `item` argument is unused by
the source, so it does not appear here; the source container is represented
by its `Matcher`, `none` standing for an absent source.) -/
def canAccept (a : Access) (sourceParent : Option Matcher) : Bool :=
  match sourceParent with
  | none => true
  | some m =>
    let sourceMatchesAllow := matchesPatterns m a.allow
    let sourceMatchesDeny := matchesPatterns m a.deny
    let isDenyFirst := a.order.head? == some "deny"
    if isDenyFirst then
      if sourceMatchesDeny then false
      else if sourceMatchesAllow then true
      else false
    else
      sourceMatchesAllow && !sourceMatchesDeny

end Access

/-! ## JSON values and the textual configuration surface

`DataDrag.parseOptions` and `DataDrag.applyAdoption` exchange structured
configuration through attribute text, converting between Bootstrap-style
single-quoted JSON and real JSON by global quote replacement, and using the
host's `JSON.parse` / `JSON.stringify`.  We model JSON values with integer
numbers (the configuration surface uses integral numbers only) and model
`JSON.stringify` in its compact form (no added whitespace), escaping `\`
and `"` inside strings; the parser accepts exactly that compact form, and
treats any escape `\c` as the literal character `c`. -/

/-- JSON values. -/
inductive Json where
  | null : Json
  | bool (b : Bool) : Json
  | num (n : Int) : Json
  | str (s : String) : Json
  | arr (elements : List Json) : Json
  | obj (fields : List (String × Json)) : Json

/-- The single-quote character. -/
def sqChar : Char := '\x27'

/-- The double-quote character. -/
def dqChar : Char := '"'

/-- Replace one character by another, leaving the rest alone. -/
def swapChar (a b c : Char) : Char := if c = a then b else c

/-- `s.replace(/a/g, b)` for single characters: the global regex replace
used by `parseOptions` (`'` → `"`) and `applyAdoption` (`"` → `'`). -/
def replaceAll (a b : Char) (s : String) : String :=
  String.mk (s.data.map (swapChar a b))

/-- One character of the string-escaping performed by `JSON.stringify`:
backslash and double quote are preceded by a backslash. -/
def escapeChar (c : Char) : List Char :=
  if c = '\\' || c = dqChar then ['\\', c] else [c]

/-- String-escaping performed by `JSON.stringify` on a character list. -/
def escapeList : List Char → List Char
  | [] => []
  | c :: cs => escapeChar c ++ escapeList cs

/-- The decimal digit character for `n < 10`. -/
def digitChar (n : Nat) : Char := Char.ofNat (48 + n)

/-- Decimal digits of a natural number, most significant first (the fuel
argument makes the recursion structural; `n + 1` units always suffice). -/
def natToDigitsAux : Nat → Nat → List Char
  | 0, _ => []
  | fuel + 1, n =>
    if n < 10 then [digitChar n]
    else natToDigitsAux fuel (n / 10) ++ [digitChar (n % 10)]

/-- Decimal digits of a natural number, most significant first. -/
def natToDigits (n : Nat) : List Char := natToDigitsAux (n + 1) n

/-- Decimal representation of an integer (how the host prints an integral
JS number, e.g. in a template string or `JSON.stringify`). -/
def intToChars (n : Int) : List Char :=
  if n < 0 then '-' :: natToDigits n.natAbs else natToDigits n.toNat

mutual

/-- `JSON.stringify` in compact form, producing a character list.  Object
and array elements are separated by `,`; keys and string values are
delimited by `"` with `\` and `"` escaped. -/
def Json.emit : Json → List Char
  | .num n => intToChars n
  | .str s => dqChar :: escapeList s.data ++ [dqChar]
  | .arr xs => '[' :: Json.emitArr xs ++ [']']
  | .obj fs => '\x7b' :: Json.emitObj fs ++ ['\x7d']
  | .bool false => ['f', 'a', 'l', 's', 'e']
  | .bool true => ['t', 'r', 'u', 'e']
  | .null => ['n', 'u', 'l', 'l']

/-- Comma-separated serialization of array elements. -/
def Json.emitArr : List Json → List Char
  | [] => []
  | [x] => x.emit
  | x :: y :: xs => x.emit ++ ',' :: Json.emitArr (y :: xs)

/-- Comma-separated serialization of object entries (`"key":value`). -/
def Json.emitObj : List (String × Json) → List Char
  | [] => []
  | [(k, v)] => dqChar :: escapeList k.data ++ dqChar :: ':' :: v.emit
  | (k, v) :: f :: fs =>
    dqChar :: escapeList k.data ++ dqChar :: ':' :: v.emit
      ++ ',' :: Json.emitObj (f :: fs)

end

/-- `JSON.stringify(v)` as a string. -/
def Json.stringify (v : Json) : String := String.mk v.emit

mutual

/-- A structural size measure for JSON values, used to budget parser fuel. -/
def Json.size : Json → Nat
  | .null | .bool _ | .num _ | .str _ => 1
  | .arr xs => Json.sizeArr xs + 1
  | .obj fs => Json.sizeObj fs + 1

/-- Size of an array's element list. -/
def Json.sizeArr : List Json → Nat
  | [] => 0
  | x :: xs => x.size + Json.sizeArr xs + 1

/-- Size of an object's entry list. -/
def Json.sizeObj : List (String × Json) → Nat
  | [] => 0
  | (_, v) :: fs => v.size + Json.sizeObj fs + 1

end

mutual

/-- Whether no string (value or key) of a JSON value contains a single or
double quote character — the hypothesis of the adoption round-trip claim. -/
def Json.quoteFreeB : Json → Bool
  | .null | .bool _ | .num _ => true
  | .str s => s.data.all (fun c => c != sqChar && c != dqChar)
  | .arr xs => Json.quoteFreeArrB xs
  | .obj fs => Json.quoteFreeObjB fs

/-- `quoteFreeB` over an array's elements. -/
def Json.quoteFreeArrB : List Json → Bool
  | [] => true
  | x :: xs => x.quoteFreeB && Json.quoteFreeArrB xs

/-- `quoteFreeB` over an object's entries, keys included. -/
def Json.quoteFreeObjB : List (String × Json) → Bool
  | [] => true
  | (k, v) :: fs =>
    k.data.all (fun c => c != sqChar && c != dqChar)
      && v.quoteFreeB && Json.quoteFreeObjB fs

end

/-- Body of a JSON string literal: characters up to the closing unescaped
`"`, with any escape `\c` read as the literal character `c`. -/
def parseStrAux : List Char → Option (List Char × List Char)
  | [] => none
  | c :: rest =>
    if c = dqChar then some ([], rest)
    else if c = '\\' then
      match rest with
      | [] => none
      | c2 :: rest2 =>
        match parseStrAux rest2 with
        | some (s, r) => some (c2 :: s, r)
        | none => none
    else
      match parseStrAux rest with
      | some (s, r) => some (c :: s, r)
      | none => none

/-- Split a character list into its leading run of decimal digits and the
remainder. -/
def spanDigits : List Char → List Char × List Char
  | [] => ([], [])
  | c :: cs =>
    if c.isDigit then
      let p := spanDigits cs
      (c :: p.1, p.2)
    else ([], c :: cs)

/-- Numeric value of a list of decimal digits. -/
def digitsVal (ds : List Char) : Nat :=
  ds.foldl (fun a c => a * 10 + (c.toNat - 48)) 0

/-- Parse a JSON integer (optional `-` sign, one or more digits). -/
def parseNumber (cs : List Char) : Option (Json × List Char) :=
  match cs with
  | [] => none
  | c :: cs1 =>
    if c = '-' then
      let p := spanDigits cs1
      if p.1 = [] then none else some (.num (-(digitsVal p.1 : Int)), p.2)
    else
      let p := spanDigits (c :: cs1)
      if p.1 = [] then none else some (.num ((digitsVal p.1 : Int)), p.2)

/-- Match an expected literal character sequence. -/
def expectLit : List Char → List Char → Option (List Char)
  | [], cs => some cs
  | l :: ls, c :: cs => if c = l then expectLit ls cs else none
  | _ :: _, [] => none

mutual

/-- Recursive-descent parser for the compact JSON emitted by `Json.emit`
(the model of the host's `JSON.parse` on the engine's inputs).  The fuel
argument bounds the nesting of recursive calls; `Json.size` of the parsed
value always suffices. -/
def parseVal : Nat → List Char → Option (Json × List Char)
  | 0, _ => none
  | fuel + 1, cs =>
    match cs with
    | [] => none
    | c :: rest =>
      if c = 'n' then
        match expectLit ['u', 'l', 'l'] rest with
        | some r => some (.null, r)
        | none => none
      else if c = 't' then
        match expectLit ['r', 'u', 'e'] rest with
        | some r => some (.bool true, r)
        | none => none
      else if c = 'f' then
        match expectLit ['a', 'l', 's', 'e'] rest with
        | some r => some (.bool false, r)
        | none => none
      else if c = dqChar then
        match parseStrAux rest with
        | some (s, r) => some (.str (String.mk s), r)
        | none => none
      else if c = '[' then
        if rest.head? = some ']' then some (.arr [], rest.tail)
        else
          match parseArrElems fuel rest with
          | some (xs, r) => some (.arr xs, r)
          | none => none
      else if c = '\x7b' then
        if rest.head? = some '\x7d' then some (.obj [], rest.tail)
        else
          match parseObjElems fuel rest with
          | some (fs, r) => some (.obj fs, r)
          | none => none
      else parseNumber (c :: rest)

/-- Parse one or more comma-separated array elements and the closing `]`. -/
def parseArrElems : Nat → List Char → Option (List Json × List Char)
  | 0, _ => none
  | fuel + 1, cs =>
    match parseVal fuel cs with
    | some (v, ',' :: r) =>
      match parseArrElems fuel r with
      | some (vs, r2) => some (v :: vs, r2)
      | none => none
    | some (v, ']' :: r) => some ([v], r)
    | _ => none

/-- Parse one or more comma-separated `"key":value` entries and the closing
`}`. -/
def parseObjElems : Nat → List Char → Option (List (String × Json) × List Char)
  | 0, _ => none
  | fuel + 1, cs =>
    match cs with
    | c :: cs1 =>
      if c = dqChar then
        match parseStrAux cs1 with
        | some (k, ':' :: cs2) =>
          match parseVal fuel cs2 with
          | some (v, ',' :: r) =>
            match parseObjElems fuel r with
            | some (fs, r2) => some ((String.mk k, v) :: fs, r2)
            | none => none
          | some (v, '\x7d' :: r) => some ([(String.mk k, v)], r)
          | _ => none
        | _ => none
      else none
    | [] => none

end

/-- Whether a character list begins with a decimal digit (if so, a parser
continuing there would absorb it into a preceding number). -/
def digitStart : List Char → Bool
  | [] => false
  | c :: _ => c.isDigit

/-- `JSON.parse(s)`: the whole input must be consumed.  The fuel
`s.length + 1` always suffices for inputs produced by `Json.emit`. -/
def Json.parse (s : String) : Option Json :=
  match parseVal (s.length + 1) s.data with
  | some (v, []) => some v
  | _ => none

/-- The item configuration `defaults` object of the source. -/
def defaults : List (String × Json) :=
  [ ("direction", .str "vertical")
  , ("copy", .bool false)
  , ("sort", .bool true)
  , ("handle", .null)
  , ("animation", .num 150) ]

/-- JS object spread `{ ...d, ...p }` for object field lists: `d`'s keys in
order with values overridden by `p` where present, then `p`'s new keys. -/
def spreadMerge (d p : List (String × Json)) : List (String × Json) :=
  d.map (fun kv => (kv.1, (p.lookup kv.1).getD kv.2))
    ++ p.filter (fun kv => (d.lookup kv.1).isNone)

/-- Index-keyed own properties contributed by spreading a string or array
(`{ ...'ab' }` has keys `0`, `1`, ...). -/
def indexEntries (xs : List Json) : List (String × Json) :=
  xs.enum.map (fun p => (toString p.1, p.2))

/-- `DataDrag.parseOptions` at the level of the `data-drag` attribute text:
absent attribute or literal `true` yields a copy of the defaults; otherwise
single quotes are globally replaced by double quotes, the text is
JSON-parsed and the result spread over the defaults; a parse failure falls
back to the defaults.  (Spreading a parsed `null`, boolean or number
contributes no enumerable properties; a parsed string or array contributes
index-keyed ones, which never collide with the defaults' keys.) -/
def parseOptionsAttr (attr : Option String) : List (String × Json) :=
  match attr with
  | none => defaults
  | some a =>
    if a = "" || a = "true" then defaults
    else
      match Json.parse (replaceAll sqChar dqChar a) with
      | some (.obj fs) => spreadMerge defaults fs
      | some (.arr xs) => spreadMerge defaults (indexEntries xs)
      | some (.str s) =>
        spreadMerge defaults (indexEntries (s.data.map (fun c => .str (String.mk [c]))))
      | some _ => defaults
      | none => defaults

/-- The attribute text written by one `DataDrag.applyAdoption` entry:
object-typed values (JS `typeof value === 'object'`, i.e. objects, arrays
and `null`) are `JSON.stringify`-serialized with every double quote
replaced by a single quote; strings, numbers and booleans are written via
their string coercion. -/
def adoptionAttrValue : Json → String
  | .obj fs => replaceAll dqChar sqChar (Json.stringify (.obj fs))
  | .arr xs => replaceAll dqChar sqChar (Json.stringify (.arr xs))
  | .null => replaceAll dqChar sqChar (Json.stringify .null)
  | .str s => s
  | .num n => String.mk (intToChars n)
  | .bool b => if b then "true" else "false"

/-! ## The document model and the drag orchestration engine

Elements are identified by natural numbers.  The document is a forest:
element child lists, shadow-root top-level child lists (each shadow root
joined to its host element), and the document's own child list.  The
engine's tree mutations (`insertBefore`, `remove`, `appendChild`,
`cloneNode`) and queries (`parentElement`, `nextElementSibling`,
`children`, attributes) are modelled over this structure; child lists are
the single source of truth, so an element's parent is the element whose
child list contains it.  Inline styles are not modelled except for the
"in-flight" visual state (the `data-drag-dragging` class and dimmed
opacity set when a drag activates and removed by `cleanupElement`).

External collaborators (spec §6) are an explicit environment record:
the geometry provider (bounding rectangles, per-scope `elementFromPoint`),
the configuration parser (per-item options, per-container parsed
`data-drag-parent` configuration) and generic CSS selector matching. -/

/-- Element identifier. -/
abbrev EId := Nat

/-- A bounding client rectangle (`getBoundingClientRect`). -/
structure Rect where
  left : Int
  top : Int
  width : Int
  height : Int
deriving DecidableEq

/-- `DOMRect.right = left + width`. -/
def Rect.right (r : Rect) : Int := r.left + r.width

/-- `DOMRect.bottom = top + height`. -/
def Rect.bottom (r : Rect) : Int := r.top + r.height

/-- The mutable document forest. -/
structure Dom where
  childLists : List (EId × List EId)
  shadowChildren : List (Nat × List EId)
  shadowHost : List (Nat × EId)
  docChildren : List EId
  attrs : List (EId × List (String × String))
  inFlight : List EId
deriving DecidableEq

namespace Dom

/-- `e.parentElement`: the element whose child list contains `e`. -/
def parentElement (d : Dom) (e : EId) : Option EId :=
  (d.childLists.find? (fun p => p.2.contains e)).map (fun p => p.1)

/-- The shadow root whose top-level children contain `e`, if any. -/
def shadowRootOf (d : Dom) (e : EId) : Option Nat :=
  (d.shadowChildren.find? (fun p => p.2.contains e)).map (fun p => p.1)

/-- `root.host` for a shadow root. -/
def hostOf (d : Dom) (r : Nat) : Option EId := d.shadowHost.lookup r

/-- `element.children` (ordered direct child elements). -/
def children (d : Dom) (e : EId) : List EId := (d.childLists.lookup e).getD []

/-- `element.getAttribute(name)`. -/
def getAttr (d : Dom) (e : EId) (name : String) : Option String :=
  match d.attrs.lookup e with
  | some l => l.lookup name
  | none => none

/-- `element.hasAttribute(name)`. -/
def hasAttr (d : Dom) (e : EId) (name : String) : Bool := (d.getAttr e name).isSome

/-- Set a key in an association list, replacing any previous binding. -/
def setPair (l : List (String × String)) (k v : String) : List (String × String) :=
  (k, v) :: l.filter (fun p => p.1 ≠ k)

/-- `element.setAttribute(name, value)`. -/
def setAttr (d : Dom) (e : EId) (name value : String) : Dom :=
  { d with attrs :=
      if (d.attrs.lookup e).isSome then
        d.attrs.map (fun p => if p.1 = e then (e, setPair p.2 name value) else p)
      else (e, [(name, value)]) :: d.attrs }

/-- The sibling list containing `e`: its parent element's children, its
shadow root's top-level list, or the document's child list. -/
def siblingList (d : Dom) (e : EId) : List EId :=
  match d.parentElement e with
  | some p => d.children p
  | none =>
    match d.shadowRootOf e with
    | some r => (d.shadowChildren.lookup r).getD []
    | none => if d.docChildren.contains e then d.docChildren else []

/-- The element following `e` in a sibling list. -/
def nextAfter : List EId → EId → Option EId
  | [], _ => none
  | a :: rest, e => if a = e then rest.head? else nextAfter rest e

/-- `e.nextElementSibling`. -/
def nextElementSibling (d : Dom) (e : EId) : Option EId :=
  nextAfter (d.siblingList e) e

/-- `e.remove()` (also the detach half of `insertBefore`): delete `e` from
every child list. -/
def removeNode (d : Dom) (e : EId) : Dom :=
  { d with
    childLists := d.childLists.map (fun p => (p.1, p.2.filter (fun c => c ≠ e)))
    shadowChildren := d.shadowChildren.map (fun p => (p.1, p.2.filter (fun c => c ≠ e)))
    docChildren := d.docChildren.filter (fun c => c ≠ e) }

/-- Insert `e` into a child list immediately before `ref` (`none` = at the
end; a `ref` not in the list also appends, a case the engine never
produces). -/
def insertIntoList (l : List EId) (e : EId) (ref : Option EId) : List EId :=
  match ref with
  | none => l ++ [e]
  | some r => l.takeWhile (fun c => c ≠ r) ++ e :: l.dropWhile (fun c => c ≠ r)

/-- `parent.insertBefore(e, ref)`: atomically detach `e` and insert it into
`parent`'s child list before `ref` (at the end when `ref` is `null`).
`parent.appendChild(e)` is `insertBefore` with `ref = none`. -/
def insertBefore (d : Dom) (parent e : EId) (ref : Option EId) : Dom :=
  let d1 := d.removeNode e
  { d1 with childLists :=
      if (d1.childLists.lookup parent).isSome then
        d1.childLists.map (fun p =>
          if p.1 = parent then (p.1, insertIntoList p.2 e ref) else p)
      else (parent, [e]) :: d1.childLists }

/-- `element.cloneNode(true)` at the granularity the engine observes: a
fresh, detached element carrying the same attributes.  (The clone's own
subtree is not tracked; no engine query inspects a clone's children.) -/
def cloneNode (d : Dom) (e : EId) (fresh : EId) : Dom :=
  { d with attrs := (fresh, (d.attrs.lookup e).getD []) :: d.attrs }

/-- Mark an element visually in-flight (`classList.add('data-drag-dragging')`
and the dimmed opacity). -/
def addInFlight (d : Dom) (e : EId) : Dom := { d with inFlight := e :: d.inFlight }

/-- Clear an element's in-flight visual state. -/
def removeInFlight (d : Dom) (e : EId) : Dom :=
  { d with inFlight := d.inFlight.filter (fun c => c ≠ e) }

/-- Whether `e` currently sits in some child list of the document forest. -/
def inTree (d : Dom) (e : EId) : Bool :=
  d.childLists.any (fun p => p.2.contains e)
    || d.shadowChildren.any (fun p => p.2.contains e)
    || d.docChildren.contains e

end Dom

/-- The per-item configuration produced by `parseOptions` (spec §6: the
external configuration parser supplies `{direction, copy, sort, handle,
animation}` with the documented defaults applied). -/
structure Options where
  direction : String
  copy : Bool
  sort : Bool
  handle : Option String
  animation : Int
deriving DecidableEq

/-- The `access` part of a parsed `data-drag-parent` configuration; absent
fields fall back to the `Access` constructor defaults. -/
structure AccessCfg where
  order : Option (List String)
  allow : Option (List String)
  deny : Option (List String)
deriving DecidableEq

/-- A parsed `data-drag-parent` configuration (`parseParentOptions` output):
`access`/`adopted` are `none` when absent or falsy. -/
structure ParentCfg where
  access : Option AccessCfg
  adopted : Option (List (String × Json))

/-- The host environment: geometry provider, per-scope hit testing,
external configuration parsing, generic selector matching, `document.body`,
and a bound on ancestor-walk length (the source's `while` loop terminates
on any acyclic document; the fuel makes that termination explicit). -/
structure Env where
  bodyId : EId
  rectOf : EId → Rect
  elementFromPointDoc : Int → Int → Option EId
  elementFromPointShadow : Nat → Int → Int → Option EId
  optionsOf : EId → Options
  parentCfg : EId → Option ParentCfg
  selMatches : EId → String → Bool
  fuel : Nat

/-- CSS selector matching: the two attribute selectors the engine uses are
answered from the document's attributes; any other selector (drag handles,
access-control patterns) is answered by the environment's matcher. -/
def matchesSel (env : Env) (d : Dom) (e : EId) (sel : String) : Bool :=
  if sel = "[data-drag]" then d.hasAttr e "data-drag"
  else if sel = "[data-drag-parent]" then d.hasAttr e "data-drag-parent"
  else env.selMatches e sel

/-- One registered `DataDrag` orchestrator.  `dragState` holds the id of
the session object this instance last created (JS reference equality
between session objects is id equality, session ids being allocated
fresh). -/
structure Inst where
  iid : Nat
  isDocumentRoot : Bool
  rootId : Nat
  dragState : Option Nat
deriving DecidableEq

/-- The per-drag session state (`this.dragState` /
`DataDrag.globalDragState`). -/
structure Session where
  sid : Nat
  item : EId
  parent : EId
  options : Options
  offsetX : Int
  offsetY : Int
  startX : Int
  startY : Int
  mirror : Option EId
  copy : Option EId
  isDragging : Bool
  sourceInstance : Nat
deriving DecidableEq

/-- Lifecycle notifications (`datadrag:*` events); the first field is the
dispatch target. -/
inductive Event where
  | start (target item parent : EId)
  | move (target item : EId) (src : Option EId) (toParent : EId) (ref : Option EId)
  | cloned (target original copy : EId)
  | adopted (target item parent : EId)
  | drop (target item srcParent toParent : EId) (isCopy : Bool)
  | cancel (target item parent : EId)
deriving Repr, DecidableEq

/-- The process-wide engine state: the instance registry (in registration
order), the shared drag session, the document, the append-only log of
emitted notifications, whether the document-level pointer-move/up listeners
are registered, and a fresh-id counter. -/
structure GState where
  instances : List Inst
  globalDragState : Option Session
  dom : Dom
  events : List Event
  docListeners : Bool
  nextId : Nat
deriving DecidableEq

/-- A pointer event: button, client coordinates, and the composed path
(for pointer-down hit testing). -/
structure MouseEv where
  button : Nat
  clientX : Int
  clientY : Int
  path : List EId
deriving DecidableEq

namespace DataDrag

/-- `DataDrag.findInPath(event, selector)`: first element of the event's
composed path matching the selector.  (Every modelled path entry is an
element node.) -/
def findInPath (env : Env) (d : Dom) (path : List EId) (selector : String) :
    Option EId :=
  path.find? (fun e => matchesSel env d e selector)

/-- One upward step of `findParentInTree`'s traversal: `parentElement`,
else `parentNode.host` (crossing out of a shadow scope).  The remaining
source branch (`parentNode` other than the document) is vacuous in this
model: every modelled node's parent chain consists of elements, shadow
roots and the document, and a shadow root or the document ends the walk. -/
def upStep (d : Dom) (e : EId) : Option EId :=
  match d.parentElement e with
  | some p => some p
  | none =>
    match d.shadowRootOf e with
    | some r => d.hostOf r
    | none => none

/-- `DataDrag.findParentInTree(element, selector)`: walk up from the
element (itself included) until a node matches the selector; `none` at the
top.  The fuel bounds the loop's length. -/
def findParentInTree (env : Env) (d : Dom) : Nat → Option EId → String → Option EId
  | 0, _, _ => none
  | _ + 1, none, _ => none
  | fuel + 1, some current, selector =>
    if matchesSel env d current selector then some current
    else findParentInTree env d fuel (upStep d current) selector

/-- The `(fuel + 1)`-prefix of the self-inclusive ancestor chain of a node:
the node, then repeatedly `upStep`. -/
def upChain (d : Dom) : Nat → Option EId → List EId
  | 0, _ => []
  | _ + 1, none => []
  | fuel + 1, some e => e :: upChain d fuel (upStep d e)

/-- The element a registered instance's scope resolves at `(x, y)`
(the `element` local of `findDropParent`): direct `elementFromPoint` for
the document root; for a shadow scope, local resolution only when the
point lies within the host's bounding rectangle (inclusive). -/
def resolveAt (env : Env) (d : Dom) (inst : Inst) (x y : Int) : Option EId :=
  if inst.isDocumentRoot then env.elementFromPointDoc x y
  else
    match d.hostOf inst.rootId with
    | some host =>
      let hostRect := env.rectOf host
      let xWithinHost := decide (x ≥ hostRect.left) && decide (x ≤ hostRect.right)
      let yWithinHost := decide (y ≥ hostRect.top) && decide (y ≤ hostRect.bottom)
      if xWithinHost && yWithinHost then env.elementFromPointShadow inst.rootId x y
      else none
    | none => none

/-- `DataDrag.findDropParent(x, y)`: iterate the registered instances in
registry order; from the element each scope resolves, walk up for a
`[data-drag-parent]` ancestor; return the first one found. -/
def findDropParent (env : Env) (d : Dom) : List Inst → Int → Int → Option EId
  | [], _, _ => none
  | inst :: rest, x, y =>
    match resolveAt env d inst x y with
    | some e =>
      match findParentInTree env d env.fuel (some e) "[data-drag-parent]" with
      | some parent => some parent
      | none => findDropParent env d rest x y
    | none => findDropParent env d rest x y

/-- `findInsertPosition(container, options, clientX, clientY, dragElement)`:
among the container's direct children carrying `data-drag` that are neither
the dragged element nor the global drag state's mirror (passed explicitly
here), the first whose bounding-rectangle midpoint along the configured
axis lies after the pointer coordinate; `none` means insert at the end. -/
def findInsertPosition (env : Env) (d : Dom) (mirror : Option EId)
    (container : EId) (options : Options) (clientX clientY : Int)
    (dragElement : EId) : Option EId :=
  let children := (d.children container).filter (fun child =>
    let isDragElement := child == dragElement
    let isMirror := some child == mirror
    let isDataDrag := d.hasAttr child "data-drag"
    !isDragElement && !isMirror && isDataDrag)
  let isHorizontal := options.direction == "horizontal"
  children.find? (fun child =>
    let rect := env.rectOf child
    let midpointScaled := if isHorizontal then 2 * rect.left + rect.width
      else 2 * rect.top + rect.height
    let coordinate := if isHorizontal then clientX else clientY
    decide (2 * coordinate < midpointScaled))

/-- `createMirror(element)`: clone the element (fresh id), style it as the
cursor-following surrogate (styles beyond existence unmodelled), and append
it to `document.body`. -/
def createMirror (env : Env) (d : Dom) (element : EId) (fresh : EId) : Dom :=
  (d.cloneNode element fresh).insertBefore env.bodyId fresh none

/-- `cleanupElement(element)`: clear the in-flight visual state; no-op on
`null`. -/
def cleanupElement (d : Dom) (e : Option EId) : Dom :=
  match e with
  | none => d
  | some el => d.removeInFlight el

/-- `DataDrag.applyAdoption(item, parent)`: if the parent's parsed
configuration declares adoption rules, set each configured attribute on the
item (object-typed values via `adoptionAttrValue`) and emit an `adopted`
notification on the parent; otherwise do nothing. -/
def applyAdoption (env : Env) (d : Dom) (item parent : EId) : Dom × List Event :=
  match env.parentCfg parent with
  | none => (d, [])
  | some cfg =>
    match cfg.adopted with
    | none => (d, [])
    | some adopted =>
      let d1 := adopted.foldl (fun acc kv => acc.setAttr item kv.1 (adoptionAttrValue kv.2)) d
      (d1, [Event.adopted parent item parent])

/-- The access-control check of `handleMouseMove`: build the `Access` from
the configured fields (constructor defaults for absent ones) and evaluate
`canAccept(item, sourceParent)`, the source container's pattern matching
going through `matchesSel`. -/
def accessAllows (env : Env) (d : Dom) (acc : AccessCfg) (sourceParent : EId) : Bool :=
  Access.canAccept (Access.ofConfig acc.order acc.allow acc.deny)
    (some (fun pat => matchesSel env d sourceParent pat))

/-- `handleMouseDown` (on the instance `iid` whose root scope observed the
event): left button only; a no-op while a session already exists; resolve
the item, its options (handle check), and the source container from the
composed path; then create the session, store it process-wide and register
the document-level move/up listeners. -/
def handleMouseDown (env : Env) (g : GState) (iid : Nat) (ev : MouseEv) : GState :=
  let isLeftClick := ev.button == 0
  if !isLeftClick then g
  else if g.globalDragState.isSome then g
  else
    match findInPath env g.dom ev.path "[data-drag]" with
    | none => g
    | some item =>
      let options := env.optionsOf item
      let handleOk :=
        match options.handle with
        | none => true
        | some hsel => (findInPath env g.dom ev.path hsel).isSome
      if !handleOk then g
      else
        match findInPath env g.dom ev.path "[data-drag-parent]" with
        | none => g
        | some parent =>
          let rect := env.rectOf item
          let session : Session :=
            { sid := g.nextId
            , item := item
            , parent := parent
            , options := options
            , offsetX := ev.clientX - rect.left
            , offsetY := ev.clientY - rect.top
            , startX := ev.clientX
            , startY := ev.clientY
            , mirror := none
            , copy := none
            , isDragging := false
            , sourceInstance := iid }
          { g with
            globalDragState := some session
            instances := g.instances.map (fun i =>
              if i.iid = iid then { i with dragState := some session.sid } else i)
            docListeners := true
            nextId := g.nextId + 1 }

/-- The drop-resolution phase of `handleMouseMove` — everything after the
threshold/activation block, split at the source's sequence point so the
two phases can be reasoned about separately: drop-target resolution (the
mirror is hidden during hit testing: the environment's `elementFromPoint`
answers never name it), access control, copy reconciliation, and insertion
with a `move` notification.  FLIP animation is style-only and not
modelled. -/
def mouseMoveResolve (env : Env) (g : GState) (ev : MouseEv) : GState :=
  match g.globalDragState with
  | none => g
  | some state1 =>
    match findDropParent env g.dom g.instances ev.clientX ev.clientY with
    | none => g
    | some dropParent =>
      let accessDenied :=
        match env.parentCfg dropParent with
        | some cfg =>
          match cfg.access with
          | some acc => !(accessAllows env g.dom acc state1.parent)
          | none => false
        | none => false
      if accessDenied then g
      else
        let isDifferentParent : Bool := dropParent != state1.parent
        let shouldCreateCopy := state1.options.copy && isDifferentParent
        let canSortInParent := state1.options.sort || isDifferentParent
        let needsNewCopy := shouldCreateCopy && state1.copy.isNone
        let needsRemoveCopy := !shouldCreateCopy && state1.copy.isSome
        let rec2 :=
          if needsNewCopy then
            (({ state1 with copy := some g.nextId } : Session),
              g.dom.cloneNode state1.item g.nextId,
              [Event.cloned state1.parent state1.item g.nextId], g.nextId + 1)
          else if needsRemoveCopy then
            (({ state1 with copy := none } : Session),
              match state1.copy with
              | some c => g.dom.removeNode c
              | none => g.dom,
              ([] : List Event), g.nextId)
          else (state1, g.dom, ([] : List Event), g.nextId)
        let state2 := rec2.1
        let g2 : GState := { g with
          globalDragState := some state2
          dom := (rec2.2).1
          events := g.events ++ ((rec2.2).2).1
          nextId := ((rec2.2).2).2 }
        if !canSortInParent then g2
        else
          let activeElement := state2.copy.getD state2.item
          let reference := findInsertPosition env g2.dom state2.mirror
            dropParent state2.options ev.clientX ev.clientY activeElement
          let parentChanged := g2.dom.parentElement activeElement != some dropParent
          let positionChanged := g2.dom.nextElementSibling activeElement != reference
          if parentChanged || positionChanged then
            let oldParent := g2.dom.parentElement activeElement
            { g2 with
              dom := g2.dom.insertBefore dropParent activeElement reference
              events := g2.events
                ++ [Event.move dropParent activeElement oldParent dropParent reference] }
          else g2

/-- `handleMouseMove`: threshold gate (`Math.hypot(dx, dy) >= 5`, embedded
as `dx² + dy² ≥ 25`) and activation (mirror creation, in-flight marking,
`start` notification), then the drop-resolution phase
(`mouseMoveResolve`).  Mirror repositioning is style-only and not
modelled. -/
def handleMouseMove (env : Env) (g : GState) (ev : MouseEv) : GState :=
  match g.globalDragState with
  | none => g
  | some state =>
    let dx := ev.clientX - state.startX
    let dy := ev.clientY - state.startY
    let notYetDragging := !state.isDragging
    if notYetDragging && decide (dx ^ 2 + dy ^ 2 < 25) then g
    else
      let act :=
        if notYetDragging then
          let mirrorId := g.nextId
          ({ state with isDragging := true, mirror := some mirrorId },
            (createMirror env g.dom state.item mirrorId).addInFlight state.item,
            [Event.start state.parent state.item state.parent], g.nextId + 1)
        else (state, g.dom, ([] : List Event), g.nextId)
      mouseMoveResolve env { g with
        globalDragState := some act.1
        dom := (act.2).1
        events := g.events ++ ((act.2).2).1
        nextId := ((act.2).2).2 } ev

/-- `handleMouseUp`: unregister the document-level listeners; a pending
(never-activated) session tears down silently; an active session removes
the mirror, clears in-flight visuals, re-validates the active element's
final parent by walking up for a container, and either applies adoption and
emits `drop`, or removes any copy and emits `cancel`; every path clears the
process-wide session. -/
def handleMouseUp (env : Env) (g : GState) : GState :=
  match g.globalDragState with
  | none => g
  | some state =>
    let instances1 := g.instances.map (fun i =>
      if i.iid = state.sourceInstance then { i with dragState := none } else i)
    if !state.isDragging then
      { g with
        docListeners := false
        globalDragState := none
        instances := instances1 }
    else
      let activeElement := state.copy.getD state.item
      let finalParent := g.dom.parentElement activeElement
      let isValidDrop := findParentInTree env g.dom env.fuel finalParent "[data-drag-parent]"
      let dom1 := match state.mirror with
        | some m => g.dom.removeNode m
        | none => g.dom
      let dom2 := cleanupElement (cleanupElement dom1 (some state.item)) state.copy
      match finalParent, isValidDrop with
      | some fp, some _ =>
        let ad := applyAdoption env dom2 activeElement fp
        { g with
          docListeners := false
          globalDragState := none
          instances := instances1
          dom := ad.1
          events := g.events ++ ad.2
            ++ [Event.drop fp activeElement state.parent fp state.copy.isSome] }
      | _, _ =>
        let dom3 := match state.copy with
          | some c => dom2.removeNode c
          | none => dom2
        { g with
          docListeners := false
          globalDragState := none
          instances := instances1
          dom := dom3
          events := g.events ++ [Event.cancel state.parent state.item state.parent] }

/-- `new DataDrag(root)`: register the pointer-down listener for the scope
and append the instance to the registry (JS `Set` iterates in insertion
order). -/
def construct (g : GState) (isDoc : Bool) (rootId : Nat) : GState :=
  { g with
    instances := g.instances
      ++ [{ iid := g.nextId, isDocumentRoot := isDoc, rootId := rootId, dragState := none }]
    nextId := g.nextId + 1 }

/-- `destroy()` on the instance `iid`: remove its pointer-down listener and
delete it from the registry; when its `dragState` is reference-equal to the
process-wide session (both `null` also compares equal), unregister the
document-level listeners and clear the process-wide session.  The mirror
and copy nodes are not touched. -/
def destroy (g : GState) (iid : Nat) : GState :=
  match g.instances.find? (fun i => i.iid == iid) with
  | none => g
  | some inst =>
    let g1 := { g with instances := g.instances.filter (fun i => i.iid ≠ iid) }
    let thisInstanceIsDragging :=
      match inst.dragState, g.globalDragState with
      | none, none => true
      | some sid, some s => sid == s.sid
      | _, _ => false
    if thisInstanceIsDragging then
      { g1 with docListeners := false, globalDragState := none }
    else g1

end DataDrag

/-- The single-session shape across orchestrators: every registered
instance's `dragState` is `null` or exactly the process-wide session's
id. -/
def sessionsConsistent (g : GState) : Prop :=
  ∀ i ∈ g.instances, i.dragState = none
    ∨ i.dragState = g.globalDragState.map Session.sid

/-! ### A small concrete scenario used by the witnesses -/

/-- A concrete document: `document.body` is element 0; element 1 is a
container (`data-drag-parent`) holding draggable items 2 and 3. -/
def demoDom : Dom :=
  { childLists := [(0, [1]), (1, [2, 3])]
  , shadowChildren := []
  , shadowHost := []
  , docChildren := [0]
  , attrs := [(1, [("data-drag-parent", "\x7b\x7d")]),
              (2, [("data-drag", "true")]), (3, [("data-drag", "true")])]
  , inFlight := [] }

/-- Default item options for the scenario. -/
def demoOptions : Options :=
  { direction := "vertical", copy := false, sort := true
  , handle := none, animation := 150 }

/-- A concrete environment: items are stacked vertically, the pointer
always hits item 2, no container declares configuration. -/
def demoEnv : Env :=
  { bodyId := 0
  , rectOf := fun e => { left := 0, top := (10 : Int) * e, width := 100, height := 10 }
  , elementFromPointDoc := fun _ _ => some 2
  , elementFromPointShadow := fun _ _ _ => none
  , optionsOf := fun _ => demoOptions
  , parentCfg := fun _ => none
  , selMatches := fun _ _ => false
  , fuel := 20 }

/-- The scenario's single document-scoped orchestrator. -/
def demoInst : Inst :=
  { iid := 100, isDocumentRoot := true, rootId := 0, dragState := none }

/-- The idle initial state. -/
def demoState0 : GState :=
  { instances := [demoInst]
  , globalDragState := none
  , dom := demoDom
  , events := []
  , docListeners := false
  , nextId := 200 }

/-- A qualifying pointer-down on item 2 at (5, 15). -/
def demoDown : MouseEv :=
  { button := 0, clientX := 5, clientY := 15, path := [2, 1, 0] }

/-- The state after the pointer-down: a pending session exists. -/
def demoState1 : GState := DataDrag.handleMouseDown demoEnv demoState0 100 demoDown

/-- The session created by the pointer-down. -/
def demoSession : Session :=
  { sid := 200, item := 2, parent := 1, options := demoOptions
  , offsetX := 5, offsetY := -5, startX := 5, startY := 15
  , mirror := none, copy := none, isDragging := false, sourceInstance := 100 }

/-- The squared Euclidean distance of a pointer-move from a session's
start position (`Math.hypot(dx, dy) = 5` exactly when this is `25`). -/
def distSq (s : Session) (ev : MouseEv) : Int :=
  (ev.clientX - s.startX) ^ 2 + (ev.clientY - s.startY) ^ 2

/-- Feeding a sequence of pointer-move events to the engine. -/
def processMoves (env : Env) (g : GState) (evs : List MouseEv) : GState :=
  evs.foldl (DataDrag.handleMouseMove env) g

/-- Freshness of the id counter relative to the current session: the source
item's id and any copy's id were allocated earlier, so ids the engine
allocates next (mirror, copy) are genuinely new. -/
def sessionFreshB (g : GState) : Bool :=
  match g.globalDragState with
  | none => true
  | some s =>
    decide (s.item < g.nextId)
      && (match s.copy with
          | none => true
          | some c => decide (c < g.nextId))

/-- C4 exactly as stated (strict reading of "exceeds"): when no pointer-move
so far has Euclidean distance from the start exceeding the 5-pixel
threshold (`distSq ≤ 25`), the session is still Pending, so that the first
move whose distance strictly exceeds the threshold (`distSq > 25`) is the
one that transitions it to Active. -/
def c4StrictThresholdClaim : Prop :=
  ∀ (env : Env) (g : GState) (s : Session) (pre : List MouseEv) (m : MouseEv),
    g.globalDragState = some s → s.isDragging = false →
    (∀ ev ∈ pre, distSq s ev ≤ 25) → distSq s m > 25 →
    ∃ s1, (processMoves env g pre).globalDragState = some s1
      ∧ s1.isDragging = false

/-- A pointer-move event over item 2 at the given coordinates. -/
def demoMove (x y : Int) : MouseEv :=
  { button := 0, clientX := x, clientY := y, path := [2, 1, 0] }

/-- C5 spec-side qualifying test, following the spec's words: the child
carries the draggable marker, is neither the active (dragged) element nor
the mirror, and its bounding-rectangle midpoint along the configured
primary axis lies strictly after the pointer coordinate (the rational
comparison `coordinate < lo + extent/2` written denominator-free as
`2*coordinate < 2*lo + extent`). -/
def c5CandidateOk (env : Env) (d : Dom) (mirror : Option EId) (options : Options)
    (clientX clientY : Int) (dragElement : EId) (child : EId) : Bool :=
  d.hasAttr child "data-drag"
    && (!(child == dragElement)
      && (!(some child == mirror)
        && decide (2 * (if options.direction == "horizontal" then clientX else clientY)
            < (if options.direction == "horizontal"
                then 2 * (env.rectOf child).left + (env.rectOf child).width
                else 2 * (env.rectOf child).top + (env.rectOf child).height))))

/-- C5 spec-side result: the first direct child of the container, in
structural order, that qualifies; `none` when no child does (insert at
end). -/
def c5FirstQualifying (env : Env) (d : Dom) (mirror : Option EId) (container : EId)
    (options : Options) (clientX clientY : Int) (dragElement : EId) : Option EId :=
  (d.children container).find?
    (c5CandidateOk env d mirror options clientX clientY dragElement)

/-- The access-denial test of the pointer-move resolution step, as in the
source: a drop parent with a parsed `access` configuration denies when
`canAccept` rejects the session's source container; a parent without
access rules never denies. -/
def c6AccessDenied (env : Env) (d : Dom) (dp : EId) (srcParent : EId) : Bool :=
  match env.parentCfg dp with
  | some cfg =>
    match cfg.access with
    | some acc => !(DataDrag.accessAllows env d acc srcParent)
    | none => false
  | none => false

/-- `shouldCreateCopy` of the source: copy mode is enabled and the
resolved drop parent differs from the session's source container. -/
def c6ShouldCopy (s : Session) (dp : EId) : Bool :=
  s.options.copy && dp != s.parent

/-- Recognizer for `cloned` lifecycle notifications. -/
def isClonedEv : Event → Bool
  | Event.cloned _ _ _ => true
  | _ => false

/-- Cancel-notification recognizer. -/
def isCancelEv : Event → Bool
  | Event.cancel _ _ _ => true
  | _ => false

/-- The document state after pointer-up's unconditional cleanup, in source
order: the mirror (if any) is detached, then the in-flight visual state of
the source item and of any copy is cleared. -/
def mouseUpCleanedDom (g : GState) (st : Session) : Dom :=
  let dom1 := match st.mirror with
    | some m => g.dom.removeNode m
    | none => g.dom
  DataDrag.cleanupElement (DataDrag.cleanupElement dom1 (some st.item)) st.copy

/-- The state after a pointer-move at distance 5 from the start: the
session has crossed the threshold and is Active. -/
def demoState2 : GState := DataDrag.handleMouseMove demoEnv demoState1 (demoMove 8 19)

/-- The Active session held by `demoState2`: the pending session with the
threshold crossed and the mirror allocated at id 201. -/
def demoSession2 : Session :=
  { demoSession with isDragging := true, mirror := some 201 }

/-- The ownership test of `destroy`, as the source writes it: JS reference
equality `this.dragState === DataDrag.globalDragState`, which also holds
when both are null. -/
def c8Owns (inst : Inst) (gs : Option Session) : Bool :=
  match inst.dragState, gs with
  | none, none => true
  | some sid, some s => sid == s.sid
  | _, _ => false

/-- C8 exactly as stated, the force-cancel part: destroying the instance
that owns the currently active session removes any surrogate mirror from
the document. -/
def c8ForceCancelRemovesClaim : Prop :=
  ∀ (g : GState) (iid : Nat) (s : Session),
    g.globalDragState = some s →
    (∃ inst ∈ g.instances, inst.iid = iid ∧ inst.dragState = some s.sid) →
    ∀ m, s.mirror = some m →
      (DataDrag.destroy g iid).dom.inTree m = false

-- ### JSON-DEFS-END

end DataDragSpec

namespace DataDragSpec

/-- C1: for every access policy and source, `canAccept` accepts an absent
source container unconditionally; with a present source container, under
order `['deny','allow']` it accepts iff `(not matchesDeny) and
matchesAllow`, and under order `['allow','deny']` it accepts iff
`matchesAllow and not matchesDeny`, where `matchesAllow` (resp.
`matchesDeny`) holds iff the allow (resp. deny) set contains the wildcard
`'*'` or the source container matches some pattern in the set. -/
theorem c1_canAccept_characterization
    (allow deny : List String) (ord : List String) (m : Matcher) :
    (Access.canAccept ⟨ord, allow, deny⟩ none = true)
    ∧ (Access.canAccept ⟨["deny", "allow"], allow, deny⟩ (some m)
        = (!(deny.contains "*" || deny.any m)
            && (allow.contains "*" || allow.any m)))
    ∧ (Access.canAccept ⟨["allow", "deny"], allow, deny⟩ (some m)
        = ((allow.contains "*" || allow.any m)
            && !(deny.contains "*" || deny.any m))) := by
  refine ⟨rfl, ?_, ?_⟩ <;>
    · simp only [Access.canAccept, Access.matchesPatterns]
      cases hdw : deny.contains "*" <;>
        cases haw : allow.contains "*" <;>
          cases hda : deny.any m <;>
            cases haa : allow.any m <;> simp [hdw, haw, hda, haa]

/-- C2 counterexample: the claim asserts the existence of an input on which
the deny-first order accepts while the allow-first order rejects; no such
input exists, because both branches of `canAccept` compute the same boolean
function `matchesAllow && not matchesDeny`. -/
theorem c2_no_input_distinguishes_orders :
    ¬ ∃ (allow deny : List String) (m : Matcher),
        Access.canAccept ⟨["deny", "allow"], allow, deny⟩ (some m) = true
        ∧ Access.canAccept ⟨["allow", "deny"], allow, deny⟩ (some m) = false := by
  rintro ⟨allow, deny, m, h₁, h₂⟩
  have hEq : Access.canAccept ⟨["deny", "allow"], allow, deny⟩ (some m)
      = Access.canAccept ⟨["allow", "deny"], allow, deny⟩ (some m) := by
    simp only [Access.canAccept, Access.matchesPatterns]
    cases hda : (if deny.contains "*" = true then true else deny.any m) <;>
      cases haa : (if allow.contains "*" = true then true else allow.any m) <;>
        simp [hda, haa]
  rw [h₁, h₂] at hEq
  exact absurd hEq (by simp)

/-- C2 amended: the two evaluation orders are extensionally equal — for
every allow set, deny set and source container (present or absent),
`canAccept` under order `['deny','allow']` returns exactly the same result
as `canAccept` under order `['allow','deny']`; both compute
`matchesAllow && not matchesDeny` for a present source. -/
theorem c2_orders_extensionally_equal
    (allow deny : List String) (src : Option Matcher) :
    Access.canAccept ⟨["deny", "allow"], allow, deny⟩ src
      = Access.canAccept ⟨["allow", "deny"], allow, deny⟩ src := by
  cases src with
  | none => rfl
  | some m =>
    simp only [Access.canAccept, Access.matchesPatterns]
    cases hda : (if deny.contains "*" = true then true else deny.any m) <;>
      cases haa : (if allow.contains "*" = true then true else allow.any m) <;>
        simp [hda, haa]

/-! ### Helper lemmas: decimal printing and parsing -/

theorem digitChar_isDigit {n : Nat} (h : n < 10) : (digitChar n).isDigit = true := by
  interval_cases n <;> decide

theorem digitChar_toNat {n : Nat} (h : n < 10) : (digitChar n).toNat = 48 + n := by
  interval_cases n <;> decide

theorem isDigit_not_special {c : Char} (h : c.isDigit = true) :
    c ≠ 'n' ∧ c ≠ 't' ∧ c ≠ 'f' ∧ c ≠ dqChar ∧ c ≠ '[' ∧ c ≠ '\x7b' ∧ c ≠ '-'
      ∧ c ≠ ']' ∧ c ≠ '\x7d' ∧ c ≠ ',' ∧ c ≠ ':' ∧ c ≠ sqChar := by
  refine ⟨?_, ?_, ?_, ?_, ?_, ?_, ?_, ?_, ?_, ?_, ?_, ?_⟩ <;>
    · rintro rfl
      exact absurd h (by decide)

theorem natToDigitsAux_digits :
    ∀ fuel n : Nat, ∀ c ∈ natToDigitsAux fuel n, c.isDigit = true := by
  intro fuel
  induction fuel with
  | zero => intro n c hc; simp [natToDigitsAux] at hc
  | succ f ih =>
    intro n c hc
    by_cases h : n < 10
    · simp only [natToDigitsAux, if_pos h, List.mem_singleton] at hc
      subst hc
      exact digitChar_isDigit h
    · simp only [natToDigitsAux, if_neg h, List.mem_append, List.mem_singleton] at hc
      rcases hc with hc | hc
      · exact ih _ c hc
      · subst hc
        exact digitChar_isDigit (Nat.mod_lt _ (by omega))

theorem natToDigitsAux_ne_nil {fuel n : Nat} (h : 0 < fuel) :
    natToDigitsAux fuel n ≠ [] := by
  cases fuel with
  | zero => omega
  | succ f => by_cases h10 : n < 10 <;> simp [natToDigitsAux, h10]

theorem digitsVal_append_singleton (ds : List Char) (c : Char) :
    digitsVal (ds ++ [c]) = 10 * digitsVal ds + (c.toNat - 48) := by
  simp only [digitsVal, List.foldl_append, List.foldl]
  omega

theorem digitsVal_natToDigitsAux :
    ∀ fuel n : Nat, n < 10 ^ fuel → digitsVal (natToDigitsAux fuel n) = n := by
  intro fuel
  induction fuel with
  | zero =>
    intro n h
    simp only [pow_zero, Nat.lt_one_iff] at h
    subst h
    rfl
  | succ f ih =>
    intro n h
    by_cases h10 : n < 10
    · simp only [natToDigitsAux, if_pos h10, digitsVal, List.foldl]
      rw [digitChar_toNat h10]
      omega
    · rw [natToDigitsAux, if_neg h10, digitsVal_append_singleton,
        digitChar_toNat (Nat.mod_lt _ (by omega))]
      have hdiv : n / 10 < 10 ^ f := by
        rw [Nat.div_lt_iff_lt_mul (by norm_num)]
        rw [pow_succ] at h
        exact h
      rw [ih _ hdiv]
      omega

theorem natToDigits_ne_nil (n : Nat) : natToDigits n ≠ [] :=
  natToDigitsAux_ne_nil (by omega)

theorem natToDigits_digits (n : Nat) : ∀ c ∈ natToDigits n, c.isDigit = true :=
  natToDigitsAux_digits _ _

theorem digitsVal_natToDigits (n : Nat) : digitsVal (natToDigits n) = n := by
  refine digitsVal_natToDigitsAux _ _ ?_
  calc n < 10 ^ n := Nat.lt_pow_self (by norm_num) n
    _ ≤ 10 ^ (n + 1) := Nat.pow_le_pow_right (by norm_num) (by omega)

theorem spanDigits_append :
    ∀ ds rest : List Char, (∀ c ∈ ds, c.isDigit = true) → digitStart rest = false →
      spanDigits (ds ++ rest) = (ds, rest) := by
  intro ds
  induction ds with
  | nil =>
    intro rest _ hrest
    cases rest with
    | nil => rfl
    | cons c cs =>
      simp only [digitStart] at hrest
      simp [spanDigits, hrest]
  | cons c cs ih =>
    intro rest hds hrest
    have hc : c.isDigit = true := hds c (by simp)
    simp only [List.cons_append, spanDigits, hc, if_true, List.append_eq]
    rw [ih rest (fun x hx => hds x (by simp [hx])) hrest]

theorem parseNumber_intToChars (n : Int) (rest : List Char)
    (h : digitStart rest = false) :
    parseNumber (intToChars n ++ rest) = some (.num n, rest) := by
  by_cases hn : n < 0
  · simp only [intToChars, if_pos hn, List.cons_append, parseNumber, if_pos rfl]
    rw [spanDigits_append _ _ (natToDigits_digits _) h]
    simp only [if_neg (natToDigits_ne_nil n.natAbs)]
    rw [digitsVal_natToDigits]
    have hna : -(n.natAbs : Int) = n := by omega
    rw [hna]
    simp
  · simp only [intToChars, if_neg hn]
    obtain ⟨d, ds, hd⟩ := List.exists_cons_of_ne_nil (natToDigits_ne_nil n.toNat)
    have hdig : d.isDigit = true := by
      refine natToDigits_digits n.toNat d ?_
      rw [hd]
      simp
    rw [hd, List.cons_append]
    simp only [parseNumber, if_neg (isDigit_not_special hdig).2.2.2.2.2.2.1]
    rw [show d :: (ds ++ rest) = (d :: ds) ++ rest by simp, ← hd,
      spanDigits_append _ _ (natToDigits_digits _) h]
    simp only [if_neg (natToDigits_ne_nil n.toNat)]
    rw [digitsVal_natToDigits]
    have hton : (n.toNat : Int) = n := by omega
    rw [hton]

theorem parseStrAux_escape :
    ∀ l rest : List Char,
      parseStrAux (escapeList l ++ dqChar :: rest) = some (l, rest) := by
  intro l
  induction l with
  | nil =>
    intro rest
    show parseStrAux (dqChar :: rest) = some ([], rest)
    rw [parseStrAux.eq_def]
    simp
  | cons c cs ih =>
    intro rest
    by_cases hc : (c = '\\' || c = dqChar) = true
    · have he : escapeList (c :: cs) = '\\' :: c :: escapeList cs := by
        simp [escapeList, escapeChar, hc]
      rw [he, List.cons_append, List.cons_append, parseStrAux.eq_def]
      simp only [if_neg (by decide : ¬ ('\\' : Char) = dqChar), if_pos rfl]
      rw [ih rest]
      simp
    · have hc2 : ¬ (c = '\\') ∧ ¬ (c = dqChar) := by
        simpa [not_or] using hc
      have he : escapeList (c :: cs) = c :: escapeList cs := by
        simp [escapeList, escapeChar, hc]
      rw [he, List.cons_append, parseStrAux.eq_def]
      simp only [if_neg hc2.2, if_neg hc2.1]
      rw [ih rest]

/-! ### The parse/stringify round trip -/

theorem strMk_data (s : String) : String.mk s.data = s := rfl

theorem size_pos (v : Json) : 1 ≤ Json.size v := by
  cases v <;> simp [Json.size]

theorem parseVal_not_special {f : Nat} {c : Char} {cs : List Char}
    (h1 : c ≠ 'n') (h2 : c ≠ 't') (h3 : c ≠ 'f') (h4 : c ≠ dqChar)
    (h5 : c ≠ '[') (h6 : c ≠ '\x7b') :
    parseVal (f + 1) (c :: cs) = parseNumber (c :: cs) := by
  rw [parseVal.eq_def]
  simp [h1, h2, h3, h4, h5, h6]

theorem emit_head (v : Json) :
    ∃ c cs, v.emit = c :: cs ∧ c ≠ ']' ∧ c ≠ '\x7d' := by
  cases v with
  | null => exact ⟨'n', _, rfl, by decide, by decide⟩
  | bool b =>
    cases b
    · exact ⟨'f', _, rfl, by decide, by decide⟩
    · exact ⟨'t', _, rfl, by decide, by decide⟩
  | num n =>
    by_cases hn : n < 0
    · exact ⟨'-', natToDigits n.natAbs, by simp [Json.emit, intToChars, hn],
        by decide, by decide⟩
    · obtain ⟨d, ds, hd⟩ := List.exists_cons_of_ne_nil (natToDigits_ne_nil n.toNat)
      have hdig : d.isDigit = true := by
        refine natToDigits_digits n.toNat d ?_
        rw [hd]; simp
      refine ⟨d, ds, by simp [Json.emit, intToChars, hn, hd], ?_, ?_⟩
      · exact (isDigit_not_special hdig).2.2.2.2.2.2.2.1
      · exact (isDigit_not_special hdig).2.2.2.2.2.2.2.2.1
  | str s => exact ⟨dqChar, _, rfl, by decide, by decide⟩
  | arr xs => exact ⟨'[', _, rfl, by decide, by decide⟩
  | obj fs => exact ⟨'\x7b', _, rfl, by decide, by decide⟩

theorem digitStart_cons (c : Char) (cs : List Char) :
    digitStart (c :: cs) = c.isDigit := rfl

theorem parseArrElems_succ (f : Nat) (cs : List Char) :
    parseArrElems (f + 1) cs =
      match parseVal f cs with
      | some (v, ',' :: r) =>
        match parseArrElems f r with
        | some (vs, r2) => some (v :: vs, r2)
        | none => none
      | some (v, ']' :: r) => some ([v], r)
      | _ => none := rfl

theorem parseObjElems_succ (f : Nat) (cs : List Char) :
    parseObjElems (f + 1) cs =
      (match cs with
      | c :: cs1 =>
        if c = dqChar then
          match parseStrAux cs1 with
          | some (k, ':' :: cs2) =>
            match parseVal f cs2 with
            | some (v, ',' :: r) =>
              match parseObjElems f r with
              | some (fs, r2) => some ((String.mk k, v) :: fs, r2)
              | none => none
            | some (v, '\x7d' :: r) => some ([(String.mk k, v)], r)
            | _ => none
          | _ => none
        else none
      | [] => none) := rfl

theorem parse_emit_mutual :
    ∀ fuel : Nat,
      (∀ v : Json, ∀ rest, Json.size v ≤ fuel → digitStart rest = false →
        parseVal fuel (v.emit ++ rest) = some (v, rest))
      ∧ (∀ xs : List Json, ∀ rest, xs ≠ [] → Json.sizeArr xs ≤ fuel →
        parseArrElems fuel (Json.emitArr xs ++ ']' :: rest) = some (xs, rest))
      ∧ (∀ fs : List (String × Json), ∀ rest, fs ≠ [] → Json.sizeObj fs ≤ fuel →
        parseObjElems fuel (Json.emitObj fs ++ '\x7d' :: rest) = some (fs, rest)) := by
  intro fuel
  induction fuel with
  | zero =>
    refine ⟨?_, ?_, ?_⟩
    · intro v rest hs _
      have := size_pos v
      omega
    · intro xs rest hne hs
      cases xs with
      | nil => exact absurd rfl hne
      | cons x xs =>
        simp only [Json.sizeArr] at hs
        omega
    · intro fs rest hne hs
      cases fs with
      | nil => exact absurd rfl hne
      | cons f fs =>
        obtain ⟨k, v⟩ := f
        simp only [Json.sizeObj] at hs
        omega
  | succ f ih =>
    obtain ⟨ihV, ihA, ihO⟩ := ih
    refine ⟨?_, ?_, ?_⟩
    · intro v rest hs hrest
      cases v with
      | null =>
        simp [Json.emit, parseVal, expectLit]
      | bool b =>
        cases b <;> simp [Json.emit, parseVal, expectLit]
      | num n =>
        show parseVal (f + 1) (intToChars n ++ rest) = some (.num n, rest)
        by_cases hn : n < 0
        · rw [show intToChars n ++ rest = '-' :: (natToDigits n.natAbs ++ rest) by
            simp [intToChars, hn]]
          rw [parseVal_not_special (by decide) (by decide) (by decide) (by decide)
            (by decide) (by decide)]
          rw [show ('-' : Char) :: (natToDigits n.natAbs ++ rest)
              = intToChars n ++ rest by simp [intToChars, hn]]
          exact parseNumber_intToChars n rest hrest
        · obtain ⟨d, ds, hd⟩ := List.exists_cons_of_ne_nil (natToDigits_ne_nil n.toNat)
          have hdig : d.isDigit = true := by
            refine natToDigits_digits n.toNat d ?_
            rw [hd]; simp
          obtain ⟨e1, e2, e3, e4, e5, e6, _⟩ := isDigit_not_special hdig
          rw [show intToChars n ++ rest = d :: (ds ++ rest) by
            simp [intToChars, hn, hd]]
          rw [parseVal_not_special e1 e2 e3 e4 e5 e6]
          rw [show d :: (ds ++ rest) = intToChars n ++ rest by
            simp [intToChars, hn, hd]]
          exact parseNumber_intToChars n rest hrest
      | str s =>
        show parseVal (f + 1) ((dqChar :: escapeList s.data ++ [dqChar]) ++ rest)
          = some (.str s, rest)
        rw [show (dqChar :: escapeList s.data ++ [dqChar]) ++ rest
            = dqChar :: (escapeList s.data ++ dqChar :: rest) by simp]
        rw [parseVal.eq_def]
        simp only [if_neg (by decide : ¬ dqChar = 'n'),
          if_neg (by decide : ¬ dqChar = 't'), if_neg (by decide : ¬ dqChar = 'f'),
          if_pos rfl]
        rw [parseStrAux_escape]
        simp [strMk_data]
      | arr xs =>
        cases xs with
        | nil =>
          show parseVal (f + 1) (('[' :: Json.emitArr [] ++ [']']) ++ rest)
            = some (.arr [], rest)
          rw [show ('[' :: Json.emitArr [] ++ [']']) ++ rest = '[' :: (']' :: rest) by
            simp [Json.emitArr]]
          rw [parseVal.eq_def]
          have h4 : ¬ (('[' : Char) = dqChar) := by decide
          simp [h4]
        | cons x xs =>
          show parseVal (f + 1) (('[' :: Json.emitArr (x :: xs) ++ [']']) ++ rest)
            = some (.arr (x :: xs), rest)
          rw [show ('[' :: Json.emitArr (x :: xs) ++ [']']) ++ rest
              = '[' :: (Json.emitArr (x :: xs) ++ ']' :: rest) by simp]
          rw [parseVal.eq_def]
          simp only [if_neg (by decide : ¬ ('[' : Char) = 'n'),
            if_neg (by decide : ¬ ('[' : Char) = 't'),
            if_neg (by decide : ¬ ('[' : Char) = 'f'),
            if_neg (by decide : ¬ ('[' : Char) = dqChar), if_pos rfl]
          obtain ⟨c0, cs0, hc0, hc0r, _⟩ := emit_head x
          have hhead : (Json.emitArr (x :: xs) ++ ']' :: rest).head? ≠ some ']' := by
            cases xs with
            | nil =>
              simp only [Json.emitArr, hc0, List.cons_append, List.head?]
              intro hcon
              exact hc0r (by simpa using hcon)
            | cons y ys =>
              simp only [Json.emitArr, hc0, List.cons_append, List.append_assoc,
                List.head?]
              intro hcon
              exact hc0r (by simpa using hcon)
          rw [if_neg hhead]
          have hsz : Json.sizeArr (x :: xs) ≤ f := by
            simp only [Json.size] at hs
            omega
          rw [ihA (x :: xs) rest (by simp) hsz]
          simp
      | obj fs =>
        cases fs with
        | nil =>
          show parseVal (f + 1) (('\x7b' :: Json.emitObj [] ++ ['\x7d']) ++ rest)
            = some (.obj [], rest)
          rw [show ('\x7b' :: Json.emitObj [] ++ ['\x7d']) ++ rest
              = '\x7b' :: ('\x7d' :: rest) by simp [Json.emitObj]]
          rw [parseVal.eq_def]
          have h4 : ¬ (('\x7b' : Char) = dqChar) := by decide
          simp [h4]
        | cons kv fs =>
          obtain ⟨k, v⟩ := kv
          show parseVal (f + 1) (('\x7b' :: Json.emitObj ((k, v) :: fs) ++ ['\x7d']) ++ rest)
            = some (.obj ((k, v) :: fs), rest)
          rw [show ('\x7b' :: Json.emitObj ((k, v) :: fs) ++ ['\x7d']) ++ rest
              = '\x7b' :: (Json.emitObj ((k, v) :: fs) ++ '\x7d' :: rest) by simp]
          rw [parseVal.eq_def]
          simp only [if_neg (by decide : ¬ ('\x7b' : Char) = 'n'),
            if_neg (by decide : ¬ ('\x7b' : Char) = 't'),
            if_neg (by decide : ¬ ('\x7b' : Char) = 'f'),
            if_neg (by decide : ¬ ('\x7b' : Char) = dqChar),
            if_neg (by decide : ¬ ('\x7b' : Char) = '['), if_pos rfl]
          have hhead : (Json.emitObj ((k, v) :: fs) ++ '\x7d' :: rest).head?
              ≠ some '\x7d' := by
            cases fs with
            | nil =>
              simp only [Json.emitObj, List.cons_append, List.head?]
              decide
            | cons g gs =>
              simp only [Json.emitObj, List.cons_append, List.append_assoc,
                List.head?]
              decide
          rw [if_neg hhead]
          have hsz : Json.sizeObj ((k, v) :: fs) ≤ f := by
            simp only [Json.size] at hs
            omega
          rw [ihO ((k, v) :: fs) rest (by simp) hsz]
          simp
    · intro xs rest hne hs
      cases xs with
      | nil => exact absurd rfl hne
      | cons x xs =>
        cases xs with
        | nil =>
          show parseArrElems (f + 1) (Json.emitArr [x] ++ ']' :: rest)
            = some ([x], rest)
          rw [show Json.emitArr [x] ++ ']' :: rest = x.emit ++ ']' :: rest by
            simp [Json.emitArr]]
          rw [parseArrElems_succ]
          have hsz : Json.size x ≤ f := by
            simp only [Json.sizeArr] at hs
            omega
          rw [ihV x (']' :: rest) hsz (by rw [digitStart_cons]; decide)]
          simp
        | cons y ys =>
          show parseArrElems (f + 1) (Json.emitArr (x :: y :: ys) ++ ']' :: rest)
            = some (x :: y :: ys, rest)
          rw [show Json.emitArr (x :: y :: ys) ++ ']' :: rest
              = x.emit ++ ',' :: (Json.emitArr (y :: ys) ++ ']' :: rest) by
            simp [Json.emitArr]]
          rw [parseArrElems_succ]
          have hsz : Json.size x ≤ f := by
            simp only [Json.sizeArr] at hs
            omega
          have hsz2 : Json.sizeArr (y :: ys) ≤ f := by
            simp only [Json.sizeArr] at hs ⊢
            omega
          have hv := ihV x (',' :: (Json.emitArr (y :: ys) ++ ']' :: rest)) hsz
            (by rw [digitStart_cons]; decide)
          have ha := ihA (y :: ys) rest (by simp) hsz2
          simp [hv, ha]
    · intro fs rest hne hs
      cases fs with
      | nil => exact absurd rfl hne
      | cons kv fs =>
        obtain ⟨k, v⟩ := kv
        cases fs with
        | nil =>
          show parseObjElems (f + 1) (Json.emitObj [(k, v)] ++ '\x7d' :: rest)
            = some ([(k, v)], rest)
          rw [show Json.emitObj [(k, v)] ++ '\x7d' :: rest
              = dqChar :: (escapeList k.data ++ dqChar :: (':' :: (v.emit ++ '\x7d' :: rest))) by
            simp [Json.emitObj]]
          rw [parseObjElems_succ]
          have hsz : Json.size v ≤ f := by
            simp only [Json.sizeObj] at hs
            omega
          have hv := ihV v ('\x7d' :: rest) hsz (by rw [digitStart_cons]; decide)
          simp [parseStrAux_escape, hv, strMk_data]
        | cons g gs =>
          show parseObjElems (f + 1) (Json.emitObj ((k, v) :: g :: gs) ++ '\x7d' :: rest)
            = some ((k, v) :: g :: gs, rest)
          rw [show Json.emitObj ((k, v) :: g :: gs) ++ '\x7d' :: rest
              = dqChar :: (escapeList k.data ++ dqChar :: (':' :: (v.emit
                  ++ ',' :: (Json.emitObj (g :: gs) ++ '\x7d' :: rest)))) by
            simp [Json.emitObj]]
          rw [parseObjElems_succ]
          have hsz : Json.size v ≤ f := by
            simp only [Json.sizeObj] at hs
            omega
          have hsz2 : Json.sizeObj (g :: gs) ≤ f := by
            simp only [Json.sizeObj] at hs ⊢
            omega
          have hv := ihV v (',' :: (Json.emitObj (g :: gs) ++ '\x7d' :: rest)) hsz
            (by rw [digitStart_cons]; decide)
          have ho := ihO (g :: gs) rest (by simp) hsz2
          simp [parseStrAux_escape, hv, ho, strMk_data]

/-! ### Fuel adequacy and quote-freeness -/

mutual

theorem size_le_emit_len : ∀ v : Json, Json.size v ≤ v.emit.length
  | .null => by simp [Json.emit, Json.size]
  | .bool b => by cases b <;> simp [Json.emit, Json.size]
  | .num n => by
    simp only [Json.emit, Json.size, intToChars]
    by_cases hn : n < 0
    · simp [hn]
    · simp only [if_neg hn]
      cases hne : natToDigits n.toNat with
      | nil => exact absurd hne (natToDigits_ne_nil n.toNat)
      | cons a as => simp
  | .str s => by simp [Json.emit, Json.size]
  | .arr xs => by
    have h := sizeArr_le_emitArr_len xs
    simp only [Json.emit, Json.size, List.length_cons, List.length_append]
    omega
  | .obj fs => by
    have h := sizeObj_le_emitObj_len fs
    simp only [Json.emit, Json.size, List.length_cons, List.length_append]
    omega

theorem sizeArr_le_emitArr_len :
    ∀ xs : List Json, Json.sizeArr xs ≤ (Json.emitArr xs).length + 1
  | [] => by simp [Json.sizeArr, Json.emitArr]
  | [x] => by
    have h := size_le_emit_len x
    simp only [Json.sizeArr, Json.emitArr]
    omega
  | x :: y :: ys => by
    have h1 := size_le_emit_len x
    have h2 := sizeArr_le_emitArr_len (y :: ys)
    simp only [Json.sizeArr, Json.emitArr, List.length_append, List.length_cons] at h2 ⊢
    omega

theorem sizeObj_le_emitObj_len :
    ∀ fs : List (String × Json), Json.sizeObj fs ≤ (Json.emitObj fs).length + 1
  | [] => by simp [Json.sizeObj, Json.emitObj]
  | [(k, v)] => by
    have h := size_le_emit_len v
    simp only [Json.sizeObj, Json.emitObj, List.length_append, List.length_cons]
    omega
  | (k, v) :: g :: gs => by
    have h1 := size_le_emit_len v
    have h2 := sizeObj_le_emitObj_len (g :: gs)
    simp only [Json.sizeObj, Json.emitObj, List.length_append, List.length_cons] at h2 ⊢
    omega

end

theorem mem_escapeList {l : List Char} {x : Char} (hx : x ∈ escapeList l) :
    x = '\\' ∨ x ∈ l := by
  induction l with
  | nil => simp [escapeList] at hx
  | cons c cs ih =>
    simp only [escapeList, escapeChar, List.mem_append] at hx
    by_cases hc : (c = '\\' || c = dqChar) = true
    · rw [if_pos hc] at hx
      rcases hx with hx | hx
      · simp only [List.mem_cons, List.mem_singleton] at hx
        rcases hx with hx | hx | hx
        · exact Or.inl hx
        · exact Or.inr (by simp [hx])
        · simp at hx
      · rcases ih hx with h | h
        · exact Or.inl h
        · exact Or.inr (by simp [h])
    · rw [if_neg hc] at hx
      rcases hx with hx | hx
      · simp only [List.mem_singleton] at hx
        exact Or.inr (by simp [hx])
      · rcases ih hx with h | h
        · exact Or.inl h
        · exact Or.inr (by simp [h])

theorem sq_not_mem_intToChars (n : Int) : sqChar ∉ intToChars n := by
  intro h
  simp only [intToChars] at h
  by_cases hn : n < 0
  · rw [if_pos hn] at h
    simp only [List.mem_cons] at h
    rcases h with h | h
    · exact absurd h (by decide)
    · exact absurd (natToDigits_digits _ _ h) (by decide)
  · rw [if_neg hn] at h
    exact absurd (natToDigits_digits _ _ h) (by decide)

theorem sq_not_mem_escape {l : List Char}
    (h : l.all (fun c => c != sqChar && c != dqChar) = true) :
    sqChar ∉ escapeList l := by
  intro hmem
  rcases mem_escapeList hmem with h1 | h1
  · exact absurd h1 (by decide)
  · simp only [List.all_eq_true] at h
    have h2 := h sqChar h1
    simp at h2

mutual

theorem sq_not_mem_emit :
    ∀ v : Json, Json.quoteFreeB v = true → sqChar ∉ v.emit
  | .null, _ => by decide
  | .bool b, _ => by cases b <;> decide
  | .num n, _ => sq_not_mem_intToChars n
  | .str s, h => by
    have hesc := sq_not_mem_escape (by simpa [Json.quoteFreeB] using h)
    simp only [Json.emit, List.mem_cons, List.mem_append, List.mem_singleton]
    have d1 : sqChar ≠ dqChar := by decide
    intro hmem
    tauto
  | .arr xs, h => by
    have hxs := sq_not_mem_emitArr xs (by simpa [Json.quoteFreeB] using h)
    simp only [Json.emit, List.mem_cons, List.mem_append, List.mem_singleton]
    have d1 : sqChar ≠ '[' := by decide
    have d2 : sqChar ≠ ']' := by decide
    intro hmem
    tauto
  | .obj fs, h => by
    have hfs := sq_not_mem_emitObj fs (by simpa [Json.quoteFreeB] using h)
    simp only [Json.emit, List.mem_cons, List.mem_append, List.mem_singleton]
    have d1 : sqChar ≠ '\x7b' := by decide
    have d2 : sqChar ≠ '\x7d' := by decide
    intro hmem
    tauto

theorem sq_not_mem_emitArr :
    ∀ xs : List Json, Json.quoteFreeArrB xs = true → sqChar ∉ Json.emitArr xs
  | [], _ => by simp [Json.emitArr]
  | [x], h => by
    simp only [Json.emitArr]
    exact sq_not_mem_emit x (by simpa [Json.quoteFreeArrB] using h)
  | x :: y :: ys, h => by
    have h1 : Json.quoteFreeB x = true ∧ Json.quoteFreeArrB (y :: ys) = true := by
      simpa [Json.quoteFreeArrB] using h
    have hx := sq_not_mem_emit x h1.1
    have hys := sq_not_mem_emitArr (y :: ys) h1.2
    simp only [Json.emitArr, List.mem_append, List.mem_cons]
    have d1 : sqChar ≠ ',' := by decide
    intro hmem
    tauto

theorem sq_not_mem_emitObj :
    ∀ fs : List (String × Json), Json.quoteFreeObjB fs = true →
      sqChar ∉ Json.emitObj fs
  | [], _ => by simp [Json.emitObj]
  | [(k, v)], h => by
    have h1 : k.data.all (fun c => c != sqChar && c != dqChar) = true
        ∧ Json.quoteFreeB v = true := by
      simpa [Json.quoteFreeObjB] using h
    have hesc := sq_not_mem_escape h1.1
    have hv := sq_not_mem_emit v h1.2
    simp only [Json.emitObj, List.mem_cons, List.mem_append]
    have d1 : sqChar ≠ dqChar := by decide
    have d2 : sqChar ≠ ':' := by decide
    intro hmem
    tauto
  | (k, v) :: g :: gs, h => by
    have h1 : k.data.all (fun c => c != sqChar && c != dqChar) = true
        ∧ Json.quoteFreeB v = true ∧ Json.quoteFreeObjB (g :: gs) = true := by
      simpa [Json.quoteFreeObjB, and_assoc] using h
    have hesc := sq_not_mem_escape h1.1
    have hv := sq_not_mem_emit v h1.2.1
    have hgs := sq_not_mem_emitObj (g :: gs) h1.2.2
    simp only [Json.emitObj, List.mem_cons, List.mem_append]
    have d1 : sqChar ≠ dqChar := by decide
    have d2 : sqChar ≠ ':' := by decide
    have d3 : sqChar ≠ ',' := by decide
    intro hmem
    tauto

end

theorem swap_dq_sq_roundtrip :
    ∀ l : List Char, sqChar ∉ l →
      (l.map (swapChar dqChar sqChar)).map (swapChar sqChar dqChar) = l := by
  intro l
  induction l with
  | nil => simp
  | cons c cs ih =>
    intro h
    simp only [List.mem_cons, not_or] at h
    simp only [List.map_cons]
    rw [ih h.2]
    congr 1
    by_cases hc : c = dqChar
    · subst hc
      simp [swapChar]
    · have hcq : ¬ (c = sqChar) := fun he => h.1 he.symm
      simp [swapChar, hc, hcq]

theorem parse_stringify_swapped (v : Json) (hq : Json.quoteFreeB v = true) :
    Json.parse (replaceAll sqChar dqChar
      (replaceAll dqChar sqChar (Json.stringify v))) = some v := by
  have hemit : replaceAll sqChar dqChar
      (replaceAll dqChar sqChar (Json.stringify v)) = Json.stringify v := by
    simp only [replaceAll, Json.stringify]
    rw [swap_dq_sq_roundtrip v.emit (sq_not_mem_emit v hq)]
  rw [hemit]
  simp only [Json.parse, Json.stringify]
  have hlen : Json.size v ≤ (String.mk v.emit).length + 1 := by
    have h1 := size_le_emit_len v
    have h2 : (String.mk v.emit).length = v.emit.length := rfl
    omega
  have h := (parse_emit_mutual ((String.mk v.emit).length + 1)).1 v [] hlen rfl
  rw [List.append_nil] at h
  rw [h]

/-- C10: for every adoption mapping that assigns the `data-drag` attribute an
object value `v` none of whose strings (keys or string values) contains a
single- or double-quote character, applying adoption (which writes
`JSON.stringify(v)` with every `"` replaced by `'`) and then parsing the
item's options (which replaces every `'` by `"` and JSON-parses, spreading
the result over the defaults) yields exactly the defaults overridden by
`v`'s fields — in particular the double-swap serialization recovers `v`
itself. -/
theorem c10_adoption_parse_roundtrip (fs : List (String × Json))
    (hq : Json.quoteFreeB (.obj fs) = true) :
    parseOptionsAttr (some (adoptionAttrValue (.obj fs))) = spreadMerge defaults fs
    ∧ Json.parse (replaceAll sqChar dqChar (adoptionAttrValue (.obj fs)))
        = some (.obj fs) := by
  have hval : adoptionAttrValue (.obj fs)
      = replaceAll dqChar sqChar (Json.stringify (.obj fs)) := rfl
  have hparse := parse_stringify_swapped (.obj fs) hq
  have hdata : (replaceAll dqChar sqChar (Json.stringify (.obj fs))).data
      = '\x7b' :: (Json.emitObj fs ++ ['\x7d']).map (swapChar dqChar sqChar) := by
    simp only [replaceAll, Json.stringify, Json.emit]
    simp [swapChar]
    intro hcon
    exact absurd hcon (by decide)
  have hne1 : ¬ (replaceAll dqChar sqChar (Json.stringify (.obj fs)) = "") := by
    intro hcon
    have := congrArg String.data hcon
    rw [hdata] at this
    simp at this
  have hne2 : ¬ (replaceAll dqChar sqChar (Json.stringify (.obj fs)) = "true") := by
    intro hcon
    have := congrArg String.data hcon
    rw [hdata] at this
    simp only [show ("true" : String).data = ['t', 'r', 'u', 'e'] from rfl] at this
    have hhead := congrArg List.head? this
    simp at hhead
  refine ⟨?_, by rw [hval]; exact hparse⟩
  rw [hval]
  simp only [parseOptionsAttr, hne1, hne2]
  rw [if_neg (by simp [hne1, hne2])]
  rw [hparse]

/-- C10 witness: the adoption/parse round trip evaluated at the concrete
object value with fields `sort = true` and `animation = 300`, whose strings
contain no quote characters. -/
theorem c10_witness :
    Json.quoteFreeB (.obj [("sort", .bool true), ("animation", .num 300)]) = true
    ∧ parseOptionsAttr (some (adoptionAttrValue
        (.obj [("sort", .bool true), ("animation", .num 300)])))
      = spreadMerge defaults [("sort", .bool true), ("animation", .num 300)] :=
  ⟨by decide, (c10_adoption_parse_roundtrip _ (by decide)).1⟩

/-! ### Document-operation lemmas -/

theorem inTree_iff (d : Dom) (e : EId) :
    d.inTree e = true ↔
      (∃ p ∈ d.childLists, e ∈ p.2) ∨ (∃ p ∈ d.shadowChildren, e ∈ p.2)
        ∨ e ∈ d.docChildren := by
  simp only [Dom.inTree, Bool.or_eq_true, List.any_eq_true, List.elem_iff,
    decide_eq_true_eq, Prod.exists]
  exact or_assoc

theorem mem_insertIntoList (l : List EId) (x : EId) (ref : Option EId) (e : EId) :
    e ∈ Dom.insertIntoList l x ref ↔ e = x ∨ e ∈ l := by
  cases ref with
  | none => simp [Dom.insertIntoList, or_comm]
  | some r =>
    simp only [Dom.insertIntoList, List.mem_append, List.mem_cons]
    constructor
    · rintro (h | h | h)
      · exact Or.inr (List.IsPrefix.mem h (List.takeWhile_prefix _))
      · exact Or.inl h
      · exact Or.inr (List.IsSuffix.mem h (List.dropWhile_suffix _))
    · rintro (h | h)
      · exact Or.inr (Or.inl h)
      · rw [← List.takeWhile_append_dropWhile (p := fun c => c ≠ r) (l := l)] at h
        rcases List.mem_append.mp h with h | h
        · exact Or.inl h
        · exact Or.inr (Or.inr h)

theorem inTree_cloneNode (d : Dom) (x f e : EId) :
    (d.cloneNode x f).inTree e = d.inTree e := rfl

theorem inFlight_cloneNode (d : Dom) (x f : EId) :
    (d.cloneNode x f).inFlight = d.inFlight := rfl

theorem inFlight_removeNode (d : Dom) (c : EId) :
    (d.removeNode c).inFlight = d.inFlight := rfl

theorem inFlight_insertBefore (d : Dom) (p x : EId) (ref : Option EId) :
    (d.insertBefore p x ref).inFlight = d.inFlight := rfl

theorem inTree_removeNode_self (d : Dom) (c : EId) :
    (d.removeNode c).inTree c = false := by
  simp [Dom.removeNode, Dom.inTree, List.any_eq_true, List.mem_filter]

theorem inTree_removeNode_other (d : Dom) (c e : EId) (h : e ≠ c) :
    (d.removeNode c).inTree e = d.inTree e := by
  rw [Bool.eq_iff_iff, inTree_iff, inTree_iff]
  simp only [Dom.removeNode, List.mem_map, List.mem_filter]
  constructor
  · rintro (⟨p, ⟨q, hq, rfl⟩, hp⟩ | ⟨p, ⟨q, hq, rfl⟩, hp⟩ | ⟨he, _⟩)
    · exact Or.inl ⟨q, hq, (List.mem_filter.mp hp).1⟩
    · exact Or.inr (Or.inl ⟨q, hq, (List.mem_filter.mp hp).1⟩)
    · exact Or.inr (Or.inr he)
  · rintro (⟨p, hp, hm⟩ | ⟨p, hp, hm⟩ | hm)
    · exact Or.inl ⟨(p.1, p.2.filter (fun c2 => c2 ≠ c)), ⟨p, hp, rfl⟩,
        List.mem_filter.mpr ⟨hm, by simpa using h⟩⟩
    · exact Or.inr (Or.inl ⟨(p.1, p.2.filter (fun c2 => c2 ≠ c)), ⟨p, hp, rfl⟩,
        List.mem_filter.mpr ⟨hm, by simpa using h⟩⟩)
    · exact Or.inr (Or.inr ⟨hm, by simpa using h⟩)

theorem lookup_mem {l : List (EId × List EId)} {k : EId} {v : List EId}
    (h : l.lookup k = some v) : (k, v) ∈ l := by
  obtain ⟨l₁, l₂, rfl, -⟩ := List.lookup_eq_some_iff.mp h
  simp

theorem inTree_insertBefore_self (d : Dom) (p x : EId) (ref : Option EId) :
    (d.insertBefore p x ref).inTree x = true := by
  rw [inTree_iff]
  simp only [Dom.insertBefore]
  by_cases hl : ((d.removeNode x).childLists.lookup p).isSome
  · left
    simp only [if_pos hl]
    obtain ⟨l, hlk⟩ := Option.isSome_iff_exists.mp hl
    refine ⟨(p, Dom.insertIntoList l x ref), ?_, ?_⟩
    · refine List.mem_map.mpr ⟨(p, l), lookup_mem hlk, ?_⟩
      simp
    · exact (mem_insertIntoList _ _ _ _).mpr (Or.inl rfl)
  · left
    simp only [if_neg hl]
    exact ⟨(p, [x]), by simp, by simp⟩

theorem inTree_insertBefore_iff (d : Dom) (p x : EId) (ref : Option EId) (e : EId) :
    (d.insertBefore p x ref).inTree e = true
      ↔ e = x ∨ (d.removeNode x).inTree e = true := by
  rw [inTree_iff, inTree_iff]
  simp only [Dom.insertBefore]
  by_cases hl : ((d.removeNode x).childLists.lookup p).isSome
  · simp only [if_pos hl]
    obtain ⟨l0, hlk⟩ := Option.isSome_iff_exists.mp hl
    constructor
    · rintro (⟨q, hq, hm⟩ | h | h)
      · obtain ⟨r, hr, rfl⟩ := List.mem_map.mp hq
        by_cases hrp : r.1 = p
        · rw [if_pos hrp] at hm
          simp only at hm
          rcases (mem_insertIntoList _ _ _ _).mp hm with h1 | h1
          · exact Or.inl h1
          · exact Or.inr (Or.inl ⟨r, hr, h1⟩)
        · rw [if_neg hrp] at hm
          exact Or.inr (Or.inl ⟨r, hr, hm⟩)
      · exact Or.inr (Or.inr (Or.inl h))
      · exact Or.inr (Or.inr (Or.inr h))
    · rintro (rfl | ⟨r, hr, hm⟩ | h | h)
      · refine Or.inl ⟨(p, Dom.insertIntoList l0 e ref), ?_, ?_⟩
        · exact List.mem_map.mpr ⟨(p, l0), lookup_mem hlk, by simp⟩
        · exact (mem_insertIntoList _ _ _ _).mpr (Or.inl rfl)
      · by_cases hrp : r.1 = p
        · refine Or.inl ⟨(r.1, Dom.insertIntoList r.2 x ref), ?_, ?_⟩
          · exact List.mem_map.mpr ⟨r, hr, by simp [hrp]⟩
          · exact (mem_insertIntoList _ _ _ _).mpr (Or.inr hm)
        · exact Or.inl ⟨r, List.mem_map.mpr ⟨r, hr, by simp [hrp]⟩, hm⟩
      · exact Or.inr (Or.inl h)
      · exact Or.inr (Or.inr h)
  · simp only [if_neg hl]
    constructor
    · rintro (⟨q, hq, hm⟩ | h | h)
      · rcases List.mem_cons.mp hq with rfl | hq2
        · simp only [List.mem_singleton] at hm
          exact Or.inl hm
        · exact Or.inr (Or.inl ⟨q, hq2, hm⟩)
      · exact Or.inr (Or.inr (Or.inl h))
      · exact Or.inr (Or.inr (Or.inr h))
    · rintro (rfl | ⟨r, hr, hm⟩ | h | h)
      · exact Or.inl ⟨(p, [e]), by simp, by simp⟩
      · exact Or.inl ⟨r, List.mem_cons.mpr (Or.inr hr), hm⟩
      · exact Or.inr (Or.inl h)
      · exact Or.inr (Or.inr h)

theorem inTree_insertBefore_other (d : Dom) (p x : EId) (ref : Option EId) (e : EId)
    (h : e ≠ x) : (d.insertBefore p x ref).inTree e = d.inTree e := by
  rw [Bool.eq_iff_iff, inTree_insertBefore_iff, inTree_removeNode_other d x e h]
  simp [h]

/-! ### C3: the single-session invariant -/

/-- C3: at most one drag session exists process-wide — the engine state
carries a single optional session and, across all orchestrators, every
instance's `dragState` is `null` or exactly that session (a shape every
pointer-down preserves) — and a pointer-down arriving while the
process-wide session reference is non-null is a silent idempotent no-op:
the state is returned unchanged, so no session is created, nothing is
mutated, no notification is emitted and no error is raised. -/
theorem c3_single_session_pointer_down
    (env : Env) (g : GState) (iid : Nat) (ev : MouseEv) :
    (∀ s, g.globalDragState = some s → DataDrag.handleMouseDown env g iid ev = g)
    ∧ (sessionsConsistent g →
        sessionsConsistent (DataDrag.handleMouseDown env g iid ev)) := by
  constructor
  · intro s hs
    unfold DataDrag.handleMouseDown
    rw [hs]
    simp
  · intro hc
    cases hgs : g.globalDragState with
    | some s =>
      have hid : DataDrag.handleMouseDown env g iid ev = g := by
        unfold DataDrag.handleMouseDown
        rw [hgs]
        simp
      rw [hid]
      exact hc
    | none =>
      unfold DataDrag.handleMouseDown
      rw [hgs]
      simp only [Option.isSome_none, Bool.false_eq_true, if_false]
      split
      · exact hc
      · split
        · exact hc
        · split
          · exact hc
          · split
            · exact hc
            · intro i hi
              simp only [List.mem_map] at hi
              obtain ⟨j, hj, rfl⟩ := hi
              by_cases hij : j.iid = iid
              · right
                simp [hij]
              · left
                simp only [if_neg hij]
                rcases hc j hj with h | h
                · exact h
                · rw [hgs] at h
                  simpa using h

/-- C3 witness: in the concrete scenario, a second pointer-down arriving
while the session from the first one is still pending changes nothing. -/
theorem c3_witness :
    demoState1.globalDragState = some demoSession
    ∧ DataDrag.handleMouseDown demoEnv demoState1 100 demoDown = demoState1
    ∧ sessionsConsistent (DataDrag.handleMouseDown demoEnv demoState1 100 demoDown) :=
  ⟨by decide,
    (c3_single_session_pointer_down demoEnv demoState1 100 demoDown).1 demoSession (by decide),
    (c3_single_session_pointer_down demoEnv demoState1 100 demoDown).2
      (by unfold sessionsConsistent; decide)⟩

/-! ### C4: the drag threshold -/

theorem inTree_addInFlight (d : Dom) (x e : EId) :
    (d.addInFlight x).inTree e = d.inTree e := rfl

theorem mousemove_under_threshold (env : Env) (g : GState) (s : Session) (ev : MouseEv)
    (hs : g.globalDragState = some s) (hd : s.isDragging = false)
    (hlt : distSq s ev < 25) :
    DataDrag.handleMouseMove env g ev = g := by
  have hc : (!s.isDragging
      && decide ((ev.clientX - s.startX) ^ 2 + (ev.clientY - s.startY) ^ 2 < 25)) = true := by
    simp only [hd, Bool.not_false, Bool.true_and, decide_eq_true_eq]
    exact hlt
  unfold DataDrag.handleMouseMove
  rw [hs]
  dsimp only
  rw [if_pos hc]

theorem mouseMoveResolve_inFlight (env : Env) (g : GState) (ev : MouseEv) :
    (DataDrag.mouseMoveResolve env g ev).dom.inFlight = g.dom.inFlight := by
  unfold DataDrag.mouseMoveResolve
  cases hgs : g.globalDragState with
  | none => rfl
  | some s =>
    cases hdp : DataDrag.findDropParent env g.dom g.instances ev.clientX ev.clientY with
    | none => rfl
    | some dp =>
      cases hcopy : s.copy <;>
        · dsimp only
          repeat' split
          all_goals rfl

theorem mouseMoveResolve_events (env : Env) (g : GState) (ev : MouseEv) :
    g.events <+: (DataDrag.mouseMoveResolve env g ev).events := by
  unfold DataDrag.mouseMoveResolve
  cases hgs : g.globalDragState with
  | none => exact List.prefix_refl _
  | some s =>
    cases hdp : DataDrag.findDropParent env g.dom g.instances ev.clientX ev.clientY with
    | none => exact List.prefix_refl _
    | some dp =>
      dsimp only
      repeat' split
      all_goals try dsimp only
      all_goals first
        | exact List.prefix_refl _
        | exact List.prefix_append _ _
        | (rw [List.append_assoc]; exact List.prefix_append _ _)

theorem mouseMoveResolve_session (env : Env) (g : GState) (ev : MouseEv) (s : Session)
    (hs : g.globalDragState = some s) :
    ∃ c2, (DataDrag.mouseMoveResolve env g ev).globalDragState
      = some { s with copy := c2 } := by
  unfold DataDrag.mouseMoveResolve
  rw [hs]
  cases hdp : DataDrag.findDropParent env g.dom g.instances ev.clientX ev.clientY with
  | none => exact ⟨s.copy, hs⟩
  | some dp =>
    dsimp only
    repeat' split
    all_goals try dsimp only
    all_goals first
      | exact ⟨s.copy, hs⟩
      | exact ⟨s.copy, rfl⟩
      | exact ⟨some g.nextId, rfl⟩
      | exact ⟨none, rfl⟩

theorem mouseMoveResolve_inTree (env : Env) (g : GState) (ev : MouseEv) (s : Session)
    (hs : g.globalDragState = some s) (e : EId)
    (he1 : e ≠ s.item) (he2 : s.copy ≠ some e) (he3 : e ≠ g.nextId) :
    (DataDrag.mouseMoveResolve env g ev).dom.inTree e = g.dom.inTree e := by
  have he2' : ∀ c, s.copy = some c → e ≠ c := by
    intro c h hec
    exact he2 (by rw [h, hec])
  unfold DataDrag.mouseMoveResolve
  rw [hs]
  cases hdp : DataDrag.findDropParent env g.dom g.instances ev.clientX ev.clientY with
  | none => rfl
  | some dp =>
    cases hcopy : s.copy with
    | none =>
      simp only [hcopy]
      try dsimp only
      repeat' split
      all_goals try dsimp only
      all_goals try simp only [hcopy, Option.getD_none, Option.getD_some]
      all_goals first
        | rfl
        | ((try simp only [Option.getD_some])
           rw [inTree_insertBefore_other _ _ _ _ _ he3,
               inTree_insertBefore_other _ _ _ _ _ he3, inTree_cloneNode])
        | ((try simp only [Option.getD_some])
           rw [inTree_insertBefore_other _ _ _ _ _ he3, inTree_cloneNode])
        | rw [inTree_cloneNode]
        | ((try simp only [Option.getD_none])
           rw [inTree_insertBefore_other _ _ _ _ _ he1])
    | some c0 =>
      simp only [hcopy]
      try dsimp only
      repeat' split
      all_goals try dsimp only
      all_goals try simp only [hcopy, Option.getD_none, Option.getD_some]
      all_goals first
        | rfl
        | ((try simp only [Option.getD_some])
           rw [inTree_insertBefore_other _ _ _ _ _ he3,
               inTree_insertBefore_other _ _ _ _ _ he3, inTree_cloneNode])
        | ((try simp only [Option.getD_some])
           rw [inTree_insertBefore_other _ _ _ _ _ he3, inTree_cloneNode])
        | rw [inTree_cloneNode]
        | rw [inTree_removeNode_other _ _ _ (he2' c0 hcopy)]
        | ((try simp only [Option.getD_none])
           rw [inTree_insertBefore_other _ _ _ _ _ he1,
               inTree_removeNode_other _ _ _ (he2' c0 hcopy)])
        | ((try simp only [Option.getD_some])
           rw [inTree_insertBefore_other _ _ _ _ _ (he2' c0 hcopy)])
        | ((try simp only [Option.getD_none])
           rw [inTree_insertBefore_other _ _ _ _ _ he1])

theorem mousemove_crossing (env : Env) (g : GState) (s : Session) (ev : MouseEv)
    (hs : g.globalDragState = some s) (hd : s.isDragging = false)
    (hfresh : sessionFreshB g = true) (hge : distSq s ev ≥ 25) :
    ∃ s2 tail,
      (DataDrag.handleMouseMove env g ev).globalDragState = some s2
      ∧ s2.isDragging = true
      ∧ s2.mirror = some g.nextId
      ∧ (DataDrag.handleMouseMove env g ev).dom.inTree g.nextId = true
      ∧ s.item ∈ (DataDrag.handleMouseMove env g ev).dom.inFlight
      ∧ (DataDrag.handleMouseMove env g ev).events
          = g.events ++ Event.start s.parent s.item s.parent :: tail := by
  have hfr : s.item < g.nextId ∧ ∀ c, s.copy = some c → c < g.nextId := by
    have hf2 : (decide (s.item < g.nextId)
        && (match s.copy with
            | none => true
            | some c => decide (c < g.nextId))) = true := by
      have hcp := hfresh
      unfold sessionFreshB at hcp
      rw [hs] at hcp
      exact hcp
    simp only [Bool.and_eq_true] at hf2
    rcases hf2 with ⟨h1, h2⟩
    refine ⟨of_decide_eq_true h1, ?_⟩
    intro c h
    rw [h] at h2
    exact of_decide_eq_true h2
  have hstep : DataDrag.handleMouseMove env g ev
      = DataDrag.mouseMoveResolve env { g with
        globalDragState := some { s with isDragging := true, mirror := some g.nextId }
        dom := (DataDrag.createMirror env g.dom s.item g.nextId).addInFlight s.item
        events := g.events ++ [Event.start s.parent s.item s.parent]
        nextId := g.nextId + 1 } ev := by
    unfold DataDrag.handleMouseMove
    rw [hs]
    try dsimp only
    rw [hd]
    try dsimp only [Bool.not_false, Bool.true_and]
    rw [if_neg (by
      simp only [Bool.not_false, Bool.true_and, decide_eq_true_eq, not_lt]
      exact hge)]
    rfl
  obtain ⟨c2, hsess⟩ := mouseMoveResolve_session env { g with
        globalDragState := some { s with isDragging := true, mirror := some g.nextId }
        dom := (DataDrag.createMirror env g.dom s.item g.nextId).addInFlight s.item
        events := g.events ++ [Event.start s.parent s.item s.parent]
        nextId := g.nextId + 1 } ev
    { s with isDragging := true, mirror := some g.nextId } rfl
  obtain ⟨t, ht⟩ := mouseMoveResolve_events env { g with
        globalDragState := some { s with isDragging := true, mirror := some g.nextId }
        dom := (DataDrag.createMirror env g.dom s.item g.nextId).addInFlight s.item
        events := g.events ++ [Event.start s.parent s.item s.parent]
        nextId := g.nextId + 1 } ev
  have hfl := mouseMoveResolve_inFlight env { g with
        globalDragState := some { s with isDragging := true, mirror := some g.nextId }
        dom := (DataDrag.createMirror env g.dom s.item g.nextId).addInFlight s.item
        events := g.events ++ [Event.start s.parent s.item s.parent]
        nextId := g.nextId + 1 } ev
  have htree := mouseMoveResolve_inTree env { g with
        globalDragState := some { s with isDragging := true, mirror := some g.nextId }
        dom := (DataDrag.createMirror env g.dom s.item g.nextId).addInFlight s.item
        events := g.events ++ [Event.start s.parent s.item s.parent]
        nextId := g.nextId + 1 } ev
    { s with isDragging := true, mirror := some g.nextId } rfl g.nextId
    (fun h => absurd h.symm (Nat.ne_of_lt hfr.1))
    (fun h => absurd (hfr.2 g.nextId h) (lt_irrefl g.nextId))
    (Nat.ne_of_lt (Nat.lt_succ_self g.nextId))
  refine ⟨{ s with isDragging := true, mirror := some g.nextId, copy := c2 }, t,
    ?_, rfl, rfl, ?_, ?_, ?_⟩
  · rw [hstep]
    exact hsess
  · rw [hstep, htree]
    show ((DataDrag.createMirror env g.dom s.item g.nextId).addInFlight s.item).inTree
      g.nextId = true
    rw [inTree_addInFlight]
    unfold DataDrag.createMirror
    exact inTree_insertBefore_self _ _ _ _
  · rw [hstep, hfl]
    exact List.mem_cons_self _ _
  · rw [hstep, ← ht]
    show (g.events ++ [Event.start s.parent s.item s.parent]) ++ t = _
    simp

/-- C4 (as stated, refuted): it is NOT the case that whenever every
pointer-move so far is within the 5-pixel threshold in the weak sense
(`distSq ≤ 25`, i.e. distance not strictly exceeding 5), the session is
still Pending.  The code activates at `Math.hypot(dx,dy) >= 5`, so a move
at distance exactly 5 (e.g. `dx = 3, dy = 4`) already flips the session to
Active even though its distance does not strictly exceed the threshold. -/
theorem c4_strict_threshold_counterexample : ¬ c4StrictThresholdClaim := by
  intro h
  rcases h demoEnv demoState1 demoSession [demoMove 8 19] (demoMove 11 15)
      (by decide) (by decide) (by decide) (by decide)
    with ⟨s1, h1, h2⟩
  have hcomp : (processMoves demoEnv demoState1 [demoMove 8 19]).globalDragState.map
      Session.isDragging = some true := by decide
  rw [h1] at hcomp
  have h3 : s1.isDragging = true := Option.some.inj hcomp
  rw [h3] at h2
  exact Bool.noConfusion h2

/-- C4 (amended): the drag threshold is inclusive.  While every
pointer-move has squared distance `< 25` from the session's start (i.e.
`Math.hypot < 5`), processing them leaves the whole engine state unchanged
— the session stays Pending.  The first move with squared distance `≥ 25`
(`Math.hypot >= 5`, distance 5 included) transitions the session to
Active: `isDragging` becomes true, a mirror element is allocated at the
next fresh id and inserted into the document, the source item is marked
in-flight, and a `start` event is emitted. -/
theorem c4_threshold_transition (env : Env) (g : GState) (s : Session)
    (pre : List MouseEv) (m : MouseEv)
    (hs : g.globalDragState = some s) (hd : s.isDragging = false)
    (hfresh : sessionFreshB g = true)
    (hpre : ∀ ev ∈ pre, distSq s ev < 25) (hm : distSq s m ≥ 25) :
    processMoves env g pre = g
    ∧ ∃ s2 tail,
      (processMoves env g (pre ++ [m])).globalDragState = some s2
      ∧ s2.isDragging = true
      ∧ s2.mirror = some g.nextId
      ∧ (processMoves env g (pre ++ [m])).dom.inTree g.nextId = true
      ∧ s.item ∈ (processMoves env g (pre ++ [m])).dom.inFlight
      ∧ (processMoves env g (pre ++ [m])).events
          = g.events ++ Event.start s.parent s.item s.parent :: tail := by
  have ha : ∀ (l : List MouseEv), (∀ ev ∈ l, distSq s ev < 25) →
      processMoves env g l = g := by
    intro l
    induction l with
    | nil => intro _; rfl
    | cons ev evs ih =>
      intro hl
      have h1 : DataDrag.handleMouseMove env g ev = g :=
        mousemove_under_threshold env g s ev hs hd (hl ev (List.mem_cons_self _ _))
      show processMoves env (DataDrag.handleMouseMove env g ev) evs = g
      rw [h1]
      exact ih (fun e he => hl e (List.mem_cons_of_mem _ he))
  have hb : processMoves env g (pre ++ [m]) = DataDrag.handleMouseMove env g m := by
    unfold processMoves
    rw [List.foldl_append]
    show DataDrag.handleMouseMove env (processMoves env g pre) m = _
    rw [ha pre hpre]
  obtain ⟨s2, tail, h1, h2, h3, h4, h5, h6⟩ := mousemove_crossing env g s m hs hd hfresh hm
  refine ⟨ha pre hpre, s2, tail, ?_, h2, h3, ?_, ?_, ?_⟩ <;> rw [hb] <;> assumption

/-- Witness for C4: in the demo scenario, a move of distance 1 leaves the
state untouched and a subsequent move of distance exactly 5 activates the
session. -/
theorem c4_witness :
    processMoves demoEnv demoState1 [demoMove 6 15] = demoState1
    ∧ ∃ s2 tail,
      (processMoves demoEnv demoState1
          ([demoMove 6 15] ++ [demoMove 8 19])).globalDragState = some s2
      ∧ s2.isDragging = true
      ∧ s2.mirror = some demoState1.nextId
      ∧ (processMoves demoEnv demoState1
          ([demoMove 6 15] ++ [demoMove 8 19])).dom.inTree demoState1.nextId = true
      ∧ demoSession.item ∈ (processMoves demoEnv demoState1
          ([demoMove 6 15] ++ [demoMove 8 19])).dom.inFlight
      ∧ (processMoves demoEnv demoState1
          ([demoMove 6 15] ++ [demoMove 8 19])).events
          = demoState1.events
            ++ Event.start demoSession.parent demoSession.item demoSession.parent
              :: tail :=
  c4_threshold_transition demoEnv demoState1 demoSession [demoMove 6 15] (demoMove 8 19)
    (by decide) (by decide) (by decide) (by decide) (by decide)

/-- `find?` respects pointwise-equal predicates. -/
theorem find?_congrB (l : List EId) (p q : EId → Bool) (h : ∀ a, p a = q a) :
    l.find? p = l.find? q := by
  induction l with
  | nil => rfl
  | cons a l ih =>
    rw [List.find?_cons, List.find?_cons, h a, ih]

/-- `find?` after `filter` is `find?` of the conjunction. -/
theorem find?_filterB (l : List EId) (p q : EId → Bool) :
    (l.filter p).find? q = l.find? (fun a => p a && q a) := by
  induction l with
  | nil => rfl
  | cons a l ih =>
    by_cases hp : p a = true
    · rw [List.filter_cons_of_pos hp]
      by_cases hq : q a = true
      · rw [List.find?_cons_of_pos _ hq, List.find?_cons_of_pos _ (by rw [hp, hq]; rfl)]
      · rw [List.find?_cons_of_neg _ hq,
          List.find?_cons_of_neg _ (by simp only [hp, Bool.true_and]; exact hq), ih]
    · rw [List.filter_cons_of_neg hp,
        List.find?_cons_of_neg _ (by simp only [Bool.and_eq_true]; tauto), ih]

/-- Reassociating a four-literal boolean conjunction. -/
theorem and_reorder4 (a b c d : Bool) :
    ((!b && !c && a) && d) = (a && (!b && (!c && d))) := by
  cases a <;> cases b <;> cases c <;> cases d <;> rfl

/-- C5: for every document, mirror reference, target container, options,
pointer coordinate and active element, `findInsertPosition` returns the
first direct child of the container, in structural order, that carries the
`data-drag` marker, is neither the active element nor the mirror, and
whose bounding-rectangle midpoint along the configured primary axis
(vertical midpoint against pointer Y for vertical layout, horizontal
midpoint against pointer X for horizontal layout) lies strictly after the
pointer coordinate; if no such child exists the result is `none` (insert
at end). -/
theorem c5_findInsertPosition_characterization (env : Env) (d : Dom)
    (mirror : Option EId) (container : EId) (options : Options)
    (clientX clientY : Int) (dragElement : EId) :
    DataDrag.findInsertPosition env d mirror container options clientX clientY dragElement
      = c5FirstQualifying env d mirror container options clientX clientY dragElement := by
  unfold DataDrag.findInsertPosition c5FirstQualifying
  dsimp only
  rw [find?_filterB]
  have hpt : ∀ a : EId,
      ((!(a == dragElement) && !(some a == mirror) && d.hasAttr a "data-drag")
        && decide (2 * (if options.direction == "horizontal" then clientX else clientY)
            < (if options.direction == "horizontal"
                then 2 * (env.rectOf a).left + (env.rectOf a).width
                else 2 * (env.rectOf a).top + (env.rectOf a).height)))
      = c5CandidateOk env d mirror options clientX clientY dragElement a := by
    intro a
    unfold c5CandidateOk
    exact and_reorder4 _ _ _ _
  exact find?_congrB _ _ _ hpt

/-- C6: copy reconciliation at a pointer-move tick.  When no drop parent
resolves, or access is denied, the whole state is untouched.  Otherwise,
with `shouldCopy = (copy-enabled AND drop parent ≠ source container)`: if
`shouldCopy` holds and no copy exists, the session's copy reference is set
to the freshly allocated clone and exactly one `cloned` notification
(carrying the source container, the original item and the clone) is
emitted this tick; if `shouldCopy` fails while a copy exists, the copy is
removed from the document and the reference cleared, with no `cloned`
notification; in the remaining cases the copy reference is unchanged and
no `cloned` notification is emitted.  The copy reference being a single
optional field, at most one copy exists per session at any instant. -/
theorem c6_copy_reconciliation (env : Env) (g : GState) (ev : MouseEv) (s : Session)
    (hs : g.globalDragState = some s) :
    (DataDrag.findDropParent env g.dom g.instances ev.clientX ev.clientY = none →
      DataDrag.mouseMoveResolve env g ev = g)
    ∧ ∀ dp, DataDrag.findDropParent env g.dom g.instances ev.clientX ev.clientY = some dp →
      (c6AccessDenied env g.dom dp s.parent = true →
        DataDrag.mouseMoveResolve env g ev = g)
      ∧ (c6AccessDenied env g.dom dp s.parent = false →
        (c6ShouldCopy s dp = true → s.copy = none →
          ∃ tail,
            (DataDrag.mouseMoveResolve env g ev).globalDragState
              = some { s with copy := some g.nextId }
            ∧ (DataDrag.mouseMoveResolve env g ev).events = g.events ++ tail
            ∧ tail.countP isClonedEv = 1
            ∧ Event.cloned s.parent s.item g.nextId ∈ tail)
        ∧ (∀ c, c6ShouldCopy s dp = false → s.copy = some c → c ≠ s.item →
          ∃ tail,
            (DataDrag.mouseMoveResolve env g ev).globalDragState
              = some { s with copy := none }
            ∧ (DataDrag.mouseMoveResolve env g ev).dom.inTree c = false
            ∧ (DataDrag.mouseMoveResolve env g ev).events = g.events ++ tail
            ∧ tail.countP isClonedEv = 0)
        ∧ ((c6ShouldCopy s dp = true ∧ s.copy ≠ none)
            ∨ (c6ShouldCopy s dp = false ∧ s.copy = none) →
          ∃ tail,
            (DataDrag.mouseMoveResolve env g ev).globalDragState = some s
            ∧ (DataDrag.mouseMoveResolve env g ev).events = g.events ++ tail
            ∧ tail.countP isClonedEv = 0)) := by
  constructor
  · intro hdp
    unfold DataDrag.mouseMoveResolve
    rw [hs, hdp]
  · intro dp hdp
    constructor
    · intro hden
      unfold c6AccessDenied at hden
      unfold DataDrag.mouseMoveResolve
      rw [hs, hdp]
      dsimp only
      rw [if_pos hden]
    · intro hden
      unfold c6AccessDenied at hden
      refine ⟨?_, ?_, ?_⟩
      · intro hsc hcn
        unfold c6ShouldCopy at hsc
        have hnn : ((s.options.copy && dp != s.parent)
            && Option.isNone (none : Option EId)) = true := by
          rw [hsc]; rfl
        unfold DataDrag.mouseMoveResolve
        rw [hs, hdp]
        dsimp only
        rw [if_neg (by rw [hden]; decide)]
        simp only [hcn]
        rw [if_pos hnn]
        dsimp only
        repeat' split
        all_goals try dsimp only
        all_goals try rw [List.append_assoc]
        all_goals exact ⟨_, rfl, rfl, rfl, List.mem_cons_self _ _⟩
      · intro c hsc hc hci
        unfold c6ShouldCopy at hsc
        have hnn : ¬ (((s.options.copy && dp != s.parent)
            && Option.isNone (some c)) = true) := by
          simp
        have hnr : ((!(s.options.copy && dp != s.parent))
            && Option.isSome (some c)) = true := by
          rw [hsc]; rfl
        unfold DataDrag.mouseMoveResolve
        rw [hs, hdp]
        dsimp only
        rw [if_neg (by rw [hden]; decide)]
        simp only [hc]
        rw [if_neg hnn, if_pos hnr]
        dsimp only
        repeat' split
        all_goals try dsimp only
        all_goals try rw [Option.getD_none]
        all_goals try rw [List.append_assoc]
        all_goals refine ⟨_, rfl, ?_, rfl, rfl⟩
        all_goals first
          | rw [inTree_removeNode_self]
          | rw [inTree_insertBefore_other _ _ _ _ _ hci, inTree_removeNode_self]
      · intro hcase
        rcases hcase with ⟨hsc, hne⟩ | ⟨hsc, hcn⟩
        · obtain ⟨c, hc⟩ := Option.ne_none_iff_exists'.mp hne
          unfold c6ShouldCopy at hsc
          have hnn : ¬ (((s.options.copy && dp != s.parent)
              && Option.isNone (some c)) = true) := by
            simp
          have hnr : ¬ (((!(s.options.copy && dp != s.parent))
              && Option.isSome (some c)) = true) := by
            rw [hsc]; simp
          unfold DataDrag.mouseMoveResolve
          rw [hs, hdp]
          dsimp only
          rw [if_neg (by rw [hden]; decide)]
          simp only [hc]
          rw [if_neg hnn, if_neg hnr]
          dsimp only
          repeat' split
          all_goals try dsimp only
          all_goals try rw [List.append_assoc]
          all_goals exact ⟨_, rfl, rfl, rfl⟩
        · unfold c6ShouldCopy at hsc
          have hnn : ¬ (((s.options.copy && dp != s.parent)
              && Option.isNone (none : Option EId)) = true) := by
            rw [hsc]; simp
          have hnr : ¬ (((!(s.options.copy && dp != s.parent))
              && Option.isSome (none : Option EId)) = true) := by
            simp
          unfold DataDrag.mouseMoveResolve
          rw [hs, hdp]
          dsimp only
          rw [if_neg (by rw [hden]; decide)]
          simp only [hcn]
          rw [if_neg hnn, if_neg hnr]
          dsimp only
          repeat' split
          all_goals try dsimp only
          all_goals try rw [List.append_assoc]
          all_goals exact ⟨_, rfl, rfl, rfl⟩

/-- Witness for C6: the reconciliation characterization instantiated on
the demo scenario after its pointer-down. -/
theorem c6_witness :
    (DataDrag.findDropParent demoEnv demoState1.dom demoState1.instances (demoMove 8 19).clientX (demoMove 8 19).clientY = none →
      DataDrag.mouseMoveResolve demoEnv demoState1 (demoMove 8 19) = demoState1)
    ∧ ∀ dp, DataDrag.findDropParent demoEnv demoState1.dom demoState1.instances (demoMove 8 19).clientX (demoMove 8 19).clientY = some dp →
      (c6AccessDenied demoEnv demoState1.dom dp demoSession.parent = true →
        DataDrag.mouseMoveResolve demoEnv demoState1 (demoMove 8 19) = demoState1)
      ∧ (c6AccessDenied demoEnv demoState1.dom dp demoSession.parent = false →
        (c6ShouldCopy demoSession dp = true → demoSession.copy = none →
          ∃ tail,
            (DataDrag.mouseMoveResolve demoEnv demoState1 (demoMove 8 19)).globalDragState
              = some { demoSession with copy := some demoState1.nextId }
            ∧ (DataDrag.mouseMoveResolve demoEnv demoState1 (demoMove 8 19)).events = demoState1.events ++ tail
            ∧ tail.countP isClonedEv = 1
            ∧ Event.cloned demoSession.parent demoSession.item demoState1.nextId ∈ tail)
        ∧ (∀ c, c6ShouldCopy demoSession dp = false → demoSession.copy = some c → c ≠ demoSession.item →
          ∃ tail,
            (DataDrag.mouseMoveResolve demoEnv demoState1 (demoMove 8 19)).globalDragState
              = some { demoSession with copy := none }
            ∧ (DataDrag.mouseMoveResolve demoEnv demoState1 (demoMove 8 19)).dom.inTree c = false
            ∧ (DataDrag.mouseMoveResolve demoEnv demoState1 (demoMove 8 19)).events = demoState1.events ++ tail
            ∧ tail.countP isClonedEv = 0)
        ∧ ((c6ShouldCopy demoSession dp = true ∧ demoSession.copy ≠ none)
            ∨ (c6ShouldCopy demoSession dp = false ∧ demoSession.copy = none) →
          ∃ tail,
            (DataDrag.mouseMoveResolve demoEnv demoState1 (demoMove 8 19)).globalDragState = some demoSession
            ∧ (DataDrag.mouseMoveResolve demoEnv demoState1 (demoMove 8 19)).events = demoState1.events ++ tail
            ∧ tail.countP isClonedEv = 0)) :=
  c6_copy_reconciliation demoEnv demoState1 (demoMove 8 19) demoSession (by decide)

/-- Elements' tree membership ignores the in-flight visual state. -/
theorem inTree_removeInFlight (d : Dom) (x e : EId) :
    (d.removeInFlight x).inTree e = d.inTree e := rfl

/-- Setting an attribute does not move elements. -/
theorem inTree_setAttr (d : Dom) (x : EId) (n v : String) (e : EId) :
    (d.setAttr x n v).inTree e = d.inTree e := rfl

/-- Setting an attribute does not touch the in-flight set. -/
theorem inFlight_setAttr (d : Dom) (x : EId) (n v : String) :
    (d.setAttr x n v).inFlight = d.inFlight := rfl

/-- Visual cleanup does not move elements. -/
theorem inTree_cleanupElement (d : Dom) (o : Option EId) (e : EId) :
    (DataDrag.cleanupElement d o).inTree e = d.inTree e := by
  cases o <;> rfl

/-- The adoption attribute writes do not move elements. -/
theorem foldl_setAttr_inTree (i : EId) (l : List (String × Json)) :
    ∀ (d : Dom) (e : EId),
      (l.foldl (fun acc kv => acc.setAttr i kv.1 (adoptionAttrValue kv.2)) d).inTree e
        = d.inTree e := by
  induction l with
  | nil => intro d e; rfl
  | cons kv l ih =>
    intro d e
    rw [List.foldl_cons, ih, inTree_setAttr]

/-- The adoption attribute writes do not touch the in-flight set. -/
theorem foldl_setAttr_inFlight (i : EId) (l : List (String × Json)) :
    ∀ (d : Dom),
      (l.foldl (fun acc kv => acc.setAttr i kv.1 (adoptionAttrValue kv.2)) d).inFlight
        = d.inFlight := by
  induction l with
  | nil => intro d; rfl
  | cons kv l ih =>
    intro d
    rw [List.foldl_cons, ih, inFlight_setAttr]

/-- Applying adoption does not move elements. -/
theorem applyAdoption_inTree (env : Env) (d : Dom) (i p e : EId) :
    ((DataDrag.applyAdoption env d i p).1).inTree e = d.inTree e := by
  unfold DataDrag.applyAdoption
  cases env.parentCfg p with
  | none => rfl
  | some cfg =>
    dsimp only
    cases cfg.adopted with
    | none => rfl
    | some adopted =>
      dsimp only
      exact foldl_setAttr_inTree i adopted d e

/-- Applying adoption does not touch the in-flight set. -/
theorem applyAdoption_inFlight (env : Env) (d : Dom) (i p : EId) :
    ((DataDrag.applyAdoption env d i p).1).inFlight = d.inFlight := by
  unfold DataDrag.applyAdoption
  cases env.parentCfg p with
  | none => rfl
  | some cfg =>
    dsimp only
    cases cfg.adopted with
    | none => rfl
    | some adopted =>
      dsimp only
      exact foldl_setAttr_inFlight i adopted d

/-- Adoption emits no cancel notification. -/
theorem applyAdoption_cancelFree (env : Env) (d : Dom) (i p : EId) :
    ((DataDrag.applyAdoption env d i p).2).countP isCancelEv = 0 := by
  unfold DataDrag.applyAdoption
  cases env.parentCfg p with
  | none => rfl
  | some cfg =>
    dsimp only
    cases cfg.adopted with
    | none => rfl
    | some adopted => rfl

/-- Membership after clearing an in-flight mark. -/
theorem mem_inFlight_removeInFlight (d : Dom) (x y : EId)
    (h : y ∈ (d.removeInFlight x).inFlight) : y ∈ d.inFlight ∧ y ≠ x := by
  have h2 := List.mem_filter.mp h
  exact ⟨h2.1, by simpa using h2.2⟩

/-- Clearing an element's in-flight mark removes it from the set. -/
theorem not_mem_inFlight_removeInFlight_self (d : Dom) (x : EId) :
    x ∉ (d.removeInFlight x).inFlight := by
  intro h
  exact (mem_inFlight_removeInFlight d x x h).2 rfl

/-- Visual cleanup only shrinks the in-flight set. -/
theorem inFlight_cleanupElement_subset (d : Dom) (o : Option EId) (x : EId)
    (h : x ∈ (DataDrag.cleanupElement d o).inFlight) : x ∈ d.inFlight := by
  cases o with
  | none => exact h
  | some el => exact (mem_inFlight_removeInFlight d el x h).1

/-- After the pointer-up cleanup, the source item is not in-flight. -/
theorem item_not_inFlight_cleaned (g : GState) (st : Session) :
    st.item ∉ (mouseUpCleanedDom g st).inFlight := by
  intro h
  have h1 := inFlight_cleanupElement_subset _ st.copy _ h
  exact not_mem_inFlight_removeInFlight_self _ _ h1

/-- After the pointer-up cleanup, the copy is not in-flight. -/
theorem copy_not_inFlight_cleaned (g : GState) (st : Session) (c : EId)
    (hc : st.copy = some c) : c ∉ (mouseUpCleanedDom g st).inFlight := by
  intro h
  unfold mouseUpCleanedDom at h
  rw [hc] at h
  exact not_mem_inFlight_removeInFlight_self _ _ h

/-- Detaching a node never puts an element back into the tree. -/
theorem inTree_removeNode_false (d : Dom) (c m : EId) (h : d.inTree m = false) :
    (d.removeNode c).inTree m = false := by
  by_cases hmc : m = c
  · subst hmc
    exact inTree_removeNode_self d m
  · rw [inTree_removeNode_other d c m hmc]
    exact h

/-- C7: pointer-up finalization of an Active session.  On every path the
process-wide session reference is cleared, the document-scoped
pointer-move/pointer-up listeners are unregistered, and the owning
instance's per-instance state is cleared.  The mirror is removed from the
document, and the in-flight visual state of the source item and of any
copy is cleared.  If the active element (the copy if one exists, else the
source item) has a parent that resolves, walking upward across scope
boundaries, to an ancestor marked `data-drag-parent`, adoption rules are
applied and exactly a drop notification carrying `isCopy` is emitted on
the final container after the adoption notifications (which contain no
cancel); otherwise any existing copy is removed from the tree, a cancel
notification scoped to the source container is emitted, and no drop is
emitted — in both cases the notifications already emitted mid-drag are
preserved as a prefix. -/
theorem c7_mouseup_finalization (env : Env) (g : GState) (st : Session)
    (hs : g.globalDragState = some st) (hd : st.isDragging = true) :
    (DataDrag.handleMouseUp env g).globalDragState = none
    ∧ (DataDrag.handleMouseUp env g).docListeners = false
    ∧ (DataDrag.handleMouseUp env g).instances
        = g.instances.map (fun i =>
            if i.iid = st.sourceInstance then { i with dragState := none } else i)
    ∧ (∀ m, st.mirror = some m → (DataDrag.handleMouseUp env g).dom.inTree m = false)
    ∧ st.item ∉ (DataDrag.handleMouseUp env g).dom.inFlight
    ∧ (∀ c, st.copy = some c → c ∉ (DataDrag.handleMouseUp env g).dom.inFlight)
    ∧ (∀ fp, g.dom.parentElement (st.copy.getD st.item) = some fp →
        ∀ vd, DataDrag.findParentInTree env g.dom env.fuel (some fp) "[data-drag-parent]"
            = some vd →
          (DataDrag.handleMouseUp env g).dom
              = (DataDrag.applyAdoption env (mouseUpCleanedDom g st)
                  (st.copy.getD st.item) fp).1
          ∧ (DataDrag.handleMouseUp env g).events
              = g.events
                ++ (DataDrag.applyAdoption env (mouseUpCleanedDom g st)
                    (st.copy.getD st.item) fp).2
                ++ [Event.drop fp (st.copy.getD st.item) st.parent fp st.copy.isSome]
          ∧ ((DataDrag.applyAdoption env (mouseUpCleanedDom g st)
              (st.copy.getD st.item) fp).2).countP isCancelEv = 0)
    ∧ (g.dom.parentElement (st.copy.getD st.item) = none →
        (DataDrag.handleMouseUp env g).events
            = g.events ++ [Event.cancel st.parent st.item st.parent]
        ∧ ∀ c, st.copy = some c → (DataDrag.handleMouseUp env g).dom.inTree c = false)
    ∧ (∀ fp, g.dom.parentElement (st.copy.getD st.item) = some fp →
        DataDrag.findParentInTree env g.dom env.fuel (some fp) "[data-drag-parent]" = none →
        (DataDrag.handleMouseUp env g).events
            = g.events ++ [Event.cancel st.parent st.item st.parent]
        ∧ ∀ c, st.copy = some c → (DataDrag.handleMouseUp env g).dom.inTree c = false) := by
  have hngate : ¬ ((!true) = true) := by decide
  unfold DataDrag.handleMouseUp
  rw [hs]
  dsimp only
  rw [hd]
  rw [if_neg hngate]
  refine ⟨?_, ?_, ?_, ?_, ?_, ?_, ?_, ?_, ?_⟩
  · split <;> rfl
  · split <;> rfl
  · split <;> rfl
  · intro m hm
    simp only [hm]
    split
    · rw [applyAdoption_inTree, inTree_cleanupElement, inTree_cleanupElement,
        inTree_removeNode_self]
    · cases hcopy : st.copy with
      | none =>
        simp only [hcopy]
        rw [inTree_cleanupElement, inTree_cleanupElement, inTree_removeNode_self]
      | some c =>
        simp only [hcopy]
        apply inTree_removeNode_false
        rw [inTree_cleanupElement, inTree_cleanupElement, inTree_removeNode_self]
  · split
    · rw [applyAdoption_inFlight]
      exact item_not_inFlight_cleaned g st
    · cases hcopy : st.copy with
      | none =>
        simp only [hcopy]
        have h1 := item_not_inFlight_cleaned g st
        unfold mouseUpCleanedDom at h1
        rw [hcopy] at h1
        exact h1
      | some c =>
        simp only [hcopy]
        rw [inFlight_removeNode]
        have h1 := item_not_inFlight_cleaned g st
        unfold mouseUpCleanedDom at h1
        rw [hcopy] at h1
        exact h1
  · intro c hc
    split
    · rw [applyAdoption_inFlight]
      exact copy_not_inFlight_cleaned g st c hc
    · simp only [hc]
      rw [inFlight_removeNode]
      have h1 := copy_not_inFlight_cleaned g st c hc
      unfold mouseUpCleanedDom at h1
      rw [hc] at h1
      exact h1
  · intro fp hfp vd hvd
    rw [hfp, hvd]
    exact ⟨rfl, rfl, applyAdoption_cancelFree env _ _ _⟩
  · intro hfp
    rw [hfp]
    refine ⟨rfl, ?_⟩
    intro c hc
    simp only [hc]
    exact inTree_removeNode_self _ _
  · intro fp hfp hvd
    rw [hfp, hvd]
    refine ⟨rfl, ?_⟩
    intro c hc
    simp only [hc]
    exact inTree_removeNode_self _ _

/-- Witness for C7: finalization of the Active demo session. -/
theorem c7_witness :
    (DataDrag.handleMouseUp demoEnv demoState2).globalDragState = none
    ∧ (DataDrag.handleMouseUp demoEnv demoState2).docListeners = false
    ∧ (DataDrag.handleMouseUp demoEnv demoState2).instances
        = demoState2.instances.map (fun i =>
            if i.iid = demoSession2.sourceInstance then { i with dragState := none } else i)
    ∧ (∀ m, demoSession2.mirror = some m → (DataDrag.handleMouseUp demoEnv demoState2).dom.inTree m = false)
    ∧ demoSession2.item ∉ (DataDrag.handleMouseUp demoEnv demoState2).dom.inFlight
    ∧ (∀ c, demoSession2.copy = some c → c ∉ (DataDrag.handleMouseUp demoEnv demoState2).dom.inFlight)
    ∧ (∀ fp, demoState2.dom.parentElement (demoSession2.copy.getD demoSession2.item) = some fp →
        ∀ vd, DataDrag.findParentInTree demoEnv demoState2.dom demoEnv.fuel (some fp) "[data-drag-parent]"
            = some vd →
          (DataDrag.handleMouseUp demoEnv demoState2).dom
              = (DataDrag.applyAdoption demoEnv (mouseUpCleanedDom demoState2 demoSession2)
                  (demoSession2.copy.getD demoSession2.item) fp).1
          ∧ (DataDrag.handleMouseUp demoEnv demoState2).events
              = demoState2.events
                ++ (DataDrag.applyAdoption demoEnv (mouseUpCleanedDom demoState2 demoSession2)
                    (demoSession2.copy.getD demoSession2.item) fp).2
                ++ [Event.drop fp (demoSession2.copy.getD demoSession2.item) demoSession2.parent fp demoSession2.copy.isSome]
          ∧ ((DataDrag.applyAdoption demoEnv (mouseUpCleanedDom demoState2 demoSession2)
              (demoSession2.copy.getD demoSession2.item) fp).2).countP isCancelEv = 0)
    ∧ (demoState2.dom.parentElement (demoSession2.copy.getD demoSession2.item) = none →
        (DataDrag.handleMouseUp demoEnv demoState2).events
            = demoState2.events ++ [Event.cancel demoSession2.parent demoSession2.item demoSession2.parent]
        ∧ ∀ c, demoSession2.copy = some c → (DataDrag.handleMouseUp demoEnv demoState2).dom.inTree c = false)
    ∧ (∀ fp, demoState2.dom.parentElement (demoSession2.copy.getD demoSession2.item) = some fp →
        DataDrag.findParentInTree demoEnv demoState2.dom demoEnv.fuel (some fp) "[data-drag-parent]" = none →
        (DataDrag.handleMouseUp demoEnv demoState2).events
            = demoState2.events ++ [Event.cancel demoSession2.parent demoSession2.item demoSession2.parent]
        ∧ ∀ c, demoSession2.copy = some c → (DataDrag.handleMouseUp demoEnv demoState2).dom.inTree c = false) :=
  c7_mouseup_finalization demoEnv demoState2 demoSession2 (by decide) (by decide)

/-- C8 (as stated, refuted): destroying the owner of an Active session
does NOT remove the surrogate mirror (nor a copy) from the document — the
source's `destroy` only unregisters the instance and nulls the
process-wide session reference, never touching the tree.  In the demo
scenario the mirror (id 201) is still in the document after the owning
orchestrator is destroyed mid-drag. -/
theorem c8_destroy_counterexample : ¬ c8ForceCancelRemovesClaim := by
  intro h
  have h2 := h demoState2 100 demoSession2 (by decide) (by decide) 201 (by decide)
  exact absurd h2 (by decide)

/-- C8 (amended): destroying an instance found in the registry deletes it
from the registry (and detaches its pointer-down listener, outside this
state model); the document tree and the notification log are left
completely untouched — in particular no mirror or copy is removed and no
drop is emitted.  If the source's reference-equality ownership test
(`dragState === globalDragState`, which also holds vacuously when both
are null) succeeds, the process-wide session reference is cleared and the
document-level listeners are unregistered; otherwise the session and the
listeners are untouched.  Destroying an unregistered id is a no-op. -/
theorem c8_destroy_behavior (g : GState) (iid : Nat) :
    (g.instances.find? (fun i => i.iid == iid) = none → DataDrag.destroy g iid = g)
    ∧ ∀ inst, g.instances.find? (fun i => i.iid == iid) = some inst →
      (DataDrag.destroy g iid).instances = g.instances.filter (fun i => i.iid ≠ iid)
      ∧ (DataDrag.destroy g iid).dom = g.dom
      ∧ (DataDrag.destroy g iid).events = g.events
      ∧ (c8Owns inst g.globalDragState = true →
          (DataDrag.destroy g iid).globalDragState = none
          ∧ (DataDrag.destroy g iid).docListeners = false)
      ∧ (c8Owns inst g.globalDragState = false →
          (DataDrag.destroy g iid).globalDragState = g.globalDragState
          ∧ (DataDrag.destroy g iid).docListeners = g.docListeners) := by
  constructor
  · intro h
    unfold DataDrag.destroy
    rw [h]
  · intro inst hinst
    unfold DataDrag.destroy
    rw [hinst]
    dsimp only
    refine ⟨?_, ?_, ?_, ?_, ?_⟩
    · split <;> rfl
    · split <;> rfl
    · split <;> rfl
    · intro hown
      unfold c8Owns at hown
      rw [hown, if_pos (by decide : true = true)]
      exact ⟨rfl, rfl⟩
    · intro hnot
      unfold c8Owns at hnot
      rw [hnot, if_neg (by decide : ¬ (false = true))]
      exact ⟨rfl, rfl⟩

/-- The upward walk of `findParentInTree` returns the first node of the
self-inclusive ancestor chain that matches the selector. -/
theorem findParentInTree_eq_find? (env : Env) (d : Dom) :
    ∀ (fuel : Nat) (oe : Option EId) (sel : String),
      DataDrag.findParentInTree env d fuel oe sel
        = (DataDrag.upChain d fuel oe).find? (fun a => matchesSel env d a sel) := by
  intro fuel
  induction fuel with
  | zero => intro oe sel; cases oe <;> rfl
  | succ n ih =>
    intro oe sel
    cases oe with
    | none => rfl
    | some e =>
      have hstep : DataDrag.findParentInTree env d (n + 1) (some e) sel
          = if matchesSel env d e sel then some e
            else DataDrag.findParentInTree env d n (DataDrag.upStep d e) sel := rfl
      have hchain : DataDrag.upChain d (n + 1) (some e)
          = e :: DataDrag.upChain d n (DataDrag.upStep d e) := rfl
      rw [hstep, hchain, List.find?_cons]
      cases h : matchesSel env d e sel
      · rw [if_neg (by decide : ¬ (false = true))]
        dsimp only
        exact ih (DataDrag.upStep d e) sel
      · rw [if_pos (rfl : true = true)]

/-- `findDropParent` is the first hit over the registry, where each
instance contributes its resolved element's first Container ancestor. -/
theorem findDropParent_eq_findSome? (env : Env) (d : Dom) :
    ∀ (insts : List Inst) (x y : Int),
      DataDrag.findDropParent env d insts x y
        = insts.findSome? (fun inst =>
            (DataDrag.resolveAt env d inst x y).bind (fun e =>
              DataDrag.findParentInTree env d env.fuel (some e) "[data-drag-parent]")) := by
  intro insts x y
  induction insts with
  | nil => rfl
  | cons inst rest ih =>
    have hstepL : DataDrag.findDropParent env d (inst :: rest) x y
        = match DataDrag.resolveAt env d inst x y with
          | some e =>
            match DataDrag.findParentInTree env d env.fuel (some e) "[data-drag-parent]" with
            | some parent => some parent
            | none => DataDrag.findDropParent env d rest x y
          | none => DataDrag.findDropParent env d rest x y := rfl
    rw [hstepL, List.findSome?_cons]
    cases hr : DataDrag.resolveAt env d inst x y with
    | none =>
      dsimp only [Option.bind]
      exact ih
    | some e =>
      dsimp only [Option.bind]
      cases hp : DataDrag.findParentInTree env d env.fuel (some e) "[data-drag-parent]" with
      | none =>
        dsimp only
        exact ih
      | some p => rfl

/-- `findSome?` yields nothing iff no element contributes. -/
theorem findSome?_eq_noneB (f : Inst → Option EId) (l : List Inst) :
    l.findSome? f = none ↔ ∀ a ∈ l, f a = none := by
  induction l with
  | nil => simp
  | cons a l ih =>
    rw [List.findSome?_cons]
    cases hf : f a with
    | none => simp [hf, ih]
    | some b => simp [hf]

/-- C9: `findDropParent` iterates the registered instances in registry
order; each instance resolves an element — directly via
`document.elementFromPoint` for the document root, and for a nested scope
only when the point lies within the host node's bounding rectangle
(inclusive, `none` when outside or when the scope has no host) — and from
a resolved element the first ancestor, along the self-inclusive upward
chain that crosses a scope boundary via its host node, matching
`[data-drag-parent]` is returned for the first instance that yields one;
the result is `none` exactly when no registered scope contributes. -/
theorem c9_findDropParent_characterization (env : Env) (d : Dom) :
    (∀ (fuel : Nat) (oe : Option EId) (sel : String),
      DataDrag.findParentInTree env d fuel oe sel
        = (DataDrag.upChain d fuel oe).find? (fun a => matchesSel env d a sel))
    ∧ (∀ (insts : List Inst) (x y : Int),
      DataDrag.findDropParent env d insts x y
        = insts.findSome? (fun inst =>
            (DataDrag.resolveAt env d inst x y).bind (fun e =>
              DataDrag.findParentInTree env d env.fuel (some e) "[data-drag-parent]")))
    ∧ (∀ (insts : List Inst) (x y : Int),
      DataDrag.findDropParent env d insts x y = none ↔
        ∀ inst ∈ insts,
          (DataDrag.resolveAt env d inst x y).bind (fun e =>
            DataDrag.findParentInTree env d env.fuel (some e) "[data-drag-parent]") = none)
    ∧ (∀ (inst : Inst) (x y : Int), inst.isDocumentRoot = true →
        DataDrag.resolveAt env d inst x y = env.elementFromPointDoc x y)
    ∧ (∀ (inst : Inst) (x y : Int) (host : EId), inst.isDocumentRoot = false →
        d.hostOf inst.rootId = some host →
        ((x ≥ (env.rectOf host).left ∧ x ≤ (env.rectOf host).right
            ∧ y ≥ (env.rectOf host).top ∧ y ≤ (env.rectOf host).bottom) →
          DataDrag.resolveAt env d inst x y = env.elementFromPointShadow inst.rootId x y)
        ∧ (¬ (x ≥ (env.rectOf host).left ∧ x ≤ (env.rectOf host).right
            ∧ y ≥ (env.rectOf host).top ∧ y ≤ (env.rectOf host).bottom) →
          DataDrag.resolveAt env d inst x y = none))
    ∧ (∀ (inst : Inst) (x y : Int), inst.isDocumentRoot = false →
        d.hostOf inst.rootId = none →
        DataDrag.resolveAt env d inst x y = none) := by
  refine ⟨findParentInTree_eq_find? env d, findDropParent_eq_findSome? env d,
    ?_, ?_, ?_, ?_⟩
  · intro insts x y
    rw [findDropParent_eq_findSome? env d insts x y]
    exact findSome?_eq_noneB _ _
  · intro inst x y h
    unfold DataDrag.resolveAt
    rw [if_pos h]
  · intro inst x y host h1 h2
    constructor
    · intro hin
      rcases hin with ⟨hx1, hx2, hy1, hy2⟩
      unfold DataDrag.resolveAt
      rw [if_neg (by rw [h1]; decide), h2]
      dsimp only
      rw [if_pos (by
        rw [decide_eq_true hx1, decide_eq_true hx2, decide_eq_true hy1,
          decide_eq_true hy2]
        rfl)]
    · intro hout
      unfold DataDrag.resolveAt
      rw [if_neg (by rw [h1]; decide), h2]
      dsimp only
      rw [if_neg (by
        intro hb
        simp only [Bool.and_eq_true, decide_eq_true_eq] at hb
        exact hout ⟨hb.1.1, hb.1.2, hb.2.1, hb.2.2⟩)]
  · intro inst x y h1 h2
    unfold DataDrag.resolveAt
    rw [if_neg (by rw [h1]; decide), h2]

end DataDragSpec
